import Mathlib

/-!
# Verification of the srt2fcpx core text pipeline

Shallow embedding of the SRT parser (`packages/core/src/srt/parser.ts`) and
the FCPXML emitter's validation layer (`fcpxml/builder.ts`), over `List Char`.
JavaScript strings are modelled as lists of Unicode scalar values; the regex
passes of the source are modelled one by one as executable list transformers
that mirror the exact matching semantics of the corresponding literal
patterns (left-to-right scanning, non-overlapping global replacement, greedy
or lazy quantifiers as written in the source).
-/

set_option maxRecDepth 20000

namespace Srt2Fcpx

/-- The double-quote character (kept out of character-literal syntax). -/
def quoteChar : Char := Char.ofNat 34

/-- The apostrophe character (kept out of character-literal syntax). -/
def aposChar : Char := Char.ofNat 39

/-- JavaScript whitespace (the class matched by regex `\s` and trimmed by
    `String.prototype.trim`): ASCII space/tab/newline/CR/VT/FF plus the
    Unicode space separators, NBSP, BOM and line/paragraph separators. -/
def isJsSpace (c : Char) : Bool :=
  c.toNat = 32 || c.toNat = 9 || c.toNat = 10 || c.toNat = 13 ||
  c.toNat = 11 || c.toNat = 12 ||
  c.toNat = 0xa0 || c.toNat = 0x1680 ||
  (0x2000 ≤ c.toNat && c.toNat ≤ 0x200a) ||
  c.toNat = 0x2028 || c.toNat = 0x2029 || c.toNat = 0x202f ||
  c.toNat = 0x205f || c.toNat = 0x3000 || c.toNat = 0xfeff

/-- JavaScript regex `\w` (no `u` flag): ASCII letters, digits, underscore. -/
def isWordChar (c : Char) : Bool :=
  (97 ≤ c.toNat && c.toNat ≤ 122) || (65 ≤ c.toNat && c.toNat ≤ 90) ||
  (48 ≤ c.toNat && c.toNat ≤ 57) || c.toNat = 95

/-- ASCII decimal digit test (regex `\d`, no `u` flag). -/
def isDigitCh (c : Char) : Bool := 48 ≤ c.toNat && c.toNat ≤ 57

/-- ASCII hex digit test (for `[0-9a-f]` under the `i` flag). -/
def isHexDigitCh (c : Char) : Bool :=
  (48 ≤ c.toNat && c.toNat ≤ 57) || (97 ≤ c.toNat && c.toNat ≤ 102) ||
  (65 ≤ c.toNat && c.toNat ≤ 70)

/-- ASCII lowercasing, the canonicalisation used by the `i` regex flag for
    the ASCII-only literals appearing in the source patterns. -/
def toLowerAscii (c : Char) : Char :=
  if 65 ≤ c.toNat ∧ c.toNat ≤ 90 then Char.ofNat (c.toNat + 32) else c

/-- Case-insensitive (ASCII) character comparison. -/
def ciEq (a b : Char) : Bool := toLowerAscii a = toLowerAscii b

/-- Case-insensitively consume `pat` from the front of `s`, returning the
    rest on success. -/
def matchCi : List Char → List Char → Option (List Char)
  | [], s => some s
  | _ :: _, [] => none
  | p :: ps, c :: cs => if ciEq p c then matchCi ps cs else none

/-- Consume the literal `pat` from the front of `s` (case-sensitive). -/
def matchLit : List Char → List Char → Option (List Char)
  | [], s => some s
  | _ :: _, [] => none
  | p :: ps, c :: cs => if p = c then matchLit ps cs else none

/-- Find the first case-insensitive occurrence of `pat`; returns the text
    before it and the text after it. -/
def splitAtCi (pat : List Char) : List Char → Option (List Char × List Char)
  | [] =>
    match matchCi pat [] with
    | some rest => some ([], rest)
    | none => none
  | c :: cs =>
    match matchCi pat (c :: cs) with
    | some rest => some ([], rest)
    | none => (splitAtCi pat cs).map (fun pr => (c :: pr.1, pr.2))

/-- Find the first literal occurrence of `pat`; returns the text before it
    and the text after it. -/
def splitAtLit (pat : List Char) : List Char → Option (List Char × List Char)
  | [] =>
    match matchLit pat [] with
    | some rest => some ([], rest)
    | none => none
  | c :: cs =>
    match matchLit pat (c :: cs) with
    | some rest => some ([], rest)
    | none => (splitAtLit pat cs).map (fun pr => (c :: pr.1, pr.2))

/-- Substring test (case-sensitive). -/
def containsSub (pat s : List Char) : Bool := (splitAtLit pat s).isSome

/-- Substring test (ASCII case-insensitive). -/
def containsCiSub (pat s : List Char) : Bool := (splitAtCi pat s).isSome

/-- Generic left-to-right global-replacement scan, the common shape of a
    JavaScript `replace(/pat/g, …)`: at each position the matcher `f`
    either matches (returning the replacement text and the rest after the
    match, which is not re-scanned into) or the character is copied and the
    scan advances by one.  Fuelled by the input length. -/
def scanG (f : List Char → Option (List Char × List Char)) : Nat → List Char → List Char
  | 0, s => s
  | _ + 1, [] => []
  | fuel + 1, c :: cs =>
    match f (c :: cs) with
    | some (repl, rest) => repl ++ scanG f fuel rest
    | none => c :: scanG f fuel cs

/-- Matcher for a global case-insensitive literal replacement. -/
def ciLitMatcher (pat repl : List Char) (t : List Char) : Option (List Char × List Char) :=
  (matchCi pat t).map (fun rest => (repl, rest))

/-- Global case-insensitive literal replacement, as in
    `str.replace(new RegExp(escapedLiteral, "gi"), repl)`: one left-to-right
    scan, replacement text never re-scanned. -/
def replaceCi (pat repl s : List Char) : List Char := scanG (ciLitMatcher pat repl) s.length s

/-- The `HTML_ENTITIES` table of the source, in object-literal order. -/
def htmlEntities : List (List Char × List Char) :=
  [("&amp;".data, ['&']),
   ("&lt;".data, ['<']),
   ("&gt;".data, ['>']),
   ("&quot;".data, [quoteChar]),
   ("&#39;".data, [aposChar]),
   ("&apos;".data, [aposChar]),
   ("&nbsp;".data, [' ']),
   ("&copy;".data, ['©']),
   ("&reg;".data, ['®']),
   ("&trade;".data, ['™']),
   ("&euro;".data, ['€']),
   ("&pound;".data, ['£']),
   ("&yen;".data, ['¥'])]

/-- Numeric value of a run of decimal digit characters. -/
def digitsToNat (l : List Char) : Nat := l.foldl (fun a c => a * 10 + (c.toNat - 48)) 0

/-- Numeric value of a run of hex digit characters. -/
def hexDigitsToNat (l : List Char) : Nat :=
  l.foldl (fun a c =>
    a * 16 +
      (if 48 ≤ c.toNat ∧ c.toNat ≤ 57 then c.toNat - 48
       else if 97 ≤ c.toNat then c.toNat - 87 else c.toNat - 55)) 0

/-- Replacement text for a numeric character reference, following the
    source's guards: negative, zero, out-of-range, surrogate and U+FFFD
    code points all become the empty string; anything else becomes the
    single denoted character. -/
def numericRepl (neg : Bool) (n : Nat) : List Char :=
  if neg then []
  else if 1 ≤ n ∧ n ≤ 0x10FFFF then
    if 0xD800 ≤ n ∧ n ≤ 0xDFFF then []
    else if n = 0xFFFD then []
    else [Char.ofNat n]
  else []

/-- Try to read the tail of a decimal reference (`-?\d+;` after `&#`),
    returning the replacement and the rest of the input. -/
def tryDecEnt (s : List Char) : Option (List Char × List Char) :=
  let neg := s.head? = some '-'
  let s1 := if neg then s.tail else s
  let ds := s1.takeWhile isDigitCh
  let rest := s1.dropWhile isDigitCh
  if ds = [] then none
  else
    match rest with
    | ';' :: r => some (numericRepl neg (digitsToNat ds), r)
    | _ => none

/-- Matcher for a decimal reference `&#-?\d+;` at the current position. -/
def decEntMatcher : List Char → Option (List Char × List Char)
  | c :: d :: cs2 => if c = '&' ∧ d = '#' then tryDecEnt cs2 else none
  | _ => none

/-- One scan replacing every decimal reference `&#-?\d+;`. -/
def decodeDecAux (fuel : Nat) (s : List Char) : List Char := scanG decEntMatcher fuel s

/-- Try to read the tail of a hex reference (`x[0-9a-f]+;` after `&#`,
    case-insensitive), returning the replacement and the rest. -/
def tryHexEnt (s : List Char) : Option (List Char × List Char) :=
  match s with
  | x :: t =>
    if x = 'x' ∨ x = 'X' then
      let ds := t.takeWhile isHexDigitCh
      let rest := t.dropWhile isHexDigitCh
      if ds = [] then none
      else
        match rest with
        | ';' :: r => some (numericRepl false (hexDigitsToNat ds), r)
        | _ => none
    else none
  | [] => none

/-- Matcher for a hex reference `&#x[0-9a-f]+;` at the current position. -/
def hexEntMatcher : List Char → Option (List Char × List Char)
  | c :: d :: cs2 => if c = '&' ∧ d = '#' then tryHexEnt cs2 else none
  | _ => none

/-- One scan replacing every hex reference `&#x[0-9a-f]+;` (`i` flag). -/
def decodeHexAux (fuel : Nat) (s : List Char) : List Char := scanG hexEntMatcher fuel s

/-- `decodeHtmlEntities` of the source: thirteen sequential global
    case-insensitive named-entity replacements (in table order), then the
    decimal numeric pass, then the hex pass.  Each pass scans once; a pass
    never re-scans its own replacement text, but a later pass does see the
    output of an earlier pass. -/
def decodeHtmlEntities (text : List Char) : List Char :=
  let named := htmlEntities.foldl (fun acc pr => replaceCi pr.1 pr.2 acc) text
  let dec := decodeDecAux named.length named
  decodeHexAux dec.length dec

/-! ## stripHtmlTags -/

/-- `/<[^>]*>/.test(text)`: some occurrence of a complete tag-like span,
    i.e. a `<` with a later `>`. -/
def hadHtmlTags (s : List Char) : Bool :=
  match s.dropWhile (fun c => c ≠ '<') with
  | [] => false
  | _ :: rest => rest.contains '>'

/-- `/<!--[\s\S]*?-->/.test(text)`. -/
def hadHtmlComments (s : List Char) : Bool :=
  match splitAtLit "<!--".data s with
  | some (_, after) => (splitAtLit "-->".data after).isSome
  | none => false

/-- `/&[#\w]+;/.test(text)`. -/
def hadHtmlEntities : List Char → Bool
  | [] => false
  | c :: cs =>
    (c = '&' &&
      ((cs.takeWhile (fun d => isWordChar d || d = '#')) ≠ [] &&
       (cs.dropWhile (fun d => isWordChar d || d = '#')).head? = some ';')) ||
    hadHtmlEntities cs

/-- The stack-based comment-removal loop of `stripHtmlTags`, transliterated
    index step by index step (`acc` is `result`, the list argument is the
    unread suffix, `depth` is `commentDepth`). -/
def stripCommentsAux : Nat → List Char → Nat → List Char → List Char
  | 0, acc, _, s => acc ++ s
  | _ + 1, acc, _, [] => acc
  | fuel + 1, acc, depth, c :: cs =>
    if c = '<' ∧ cs.take 3 = ['!', '-', '-'] then
      let acc1 :=
        if depth = 0 ∧ acc ≠ [] ∧ acc.getLast? ≠ some ' ' then acc ++ [' '] else acc
      stripCommentsAux fuel acc1 (depth + 1) (cs.drop 3)
    else if c = '-' ∧ cs.take 2 = ['-', '>'] then
      if depth = 0 then
        stripCommentsAux fuel (acc ++ [c]) 0 cs
      else if depth = 1 then
        let acc1 :=
          match (cs.drop 2).head? with
          | some d => if isJsSpace d then acc else acc ++ [' ']
          | none => acc
        stripCommentsAux fuel acc1 0 cs
      else
        stripCommentsAux fuel acc (depth - 1) (cs.drop 2)
    else
      stripCommentsAux fuel (if depth = 0 then acc ++ [c] else acc) depth cs

/-- Wrapper for the comment-removal loop. -/
def stripComments (s : List Char) : List Char := stripCommentsAux s.length [] 0 s

/-- Global removal of lazy blocks `open[\s\S]*?close` (both literals matched
    case-insensitively), as in the `<script>`/`<style>` passes.  When
    `keepInner` is true the matched inner text is kept (the CDATA-unwrap
    behaviour); otherwise the whole match is dropped. -/
def removeLazyBlocksCiAux (opn cls : List Char) (keepInner : Bool) :
    Nat → List Char → List Char
  | 0, s => s
  | fuel + 1, s =>
    match splitAtCi opn s with
    | none => s
    | some (before, afterOpen) =>
      match splitAtCi cls afterOpen with
      | none => s
      | some (inner, afterClose) =>
        before ++ (if keepInner then inner else []) ++
          removeLazyBlocksCiAux opn cls keepInner fuel afterClose

/-- Wrapper choosing sufficient fuel. -/
def removeLazyBlocksCi (opn cls : List Char) (keepInner : Bool) (s : List Char) :
    List Char :=
  removeLazyBlocksCiAux opn cls keepInner s.length s

/-- Attempt to match `style\s*=\s*["'][^"']*["']` at the start of `s`
    (the `\b` test is done by the caller); returns the rest after the
    closing quote. -/
def tryStyleAttr (s : List Char) : Option (List Char) :=
  match matchCi "style".data s with
  | none => none
  | some r1 =>
    match (r1.dropWhile isJsSpace) with
    | e :: r3 =>
      if e = '=' then
        match (r3.dropWhile isJsSpace) with
        | q :: r5 =>
          if q = quoteChar ∨ q = aposChar then
            match r5.dropWhile (fun c => c ≠ quoteChar ∧ c ≠ aposChar) with
            | _ :: r7 => some r7
            | [] => none
          else none
        | [] => none
      else none
    | [] => none

/-- Global removal of `\bstyle\s*=\s*["']([^"']*)["']` (both branches of the
    source callback return the empty string).  `prevW` tracks whether the
    previous character was a word character, for the `\b` assertion. -/
def removeStyleAttrsAux : Nat → Bool → List Char → List Char
  | 0, _, s => s
  | _ + 1, _, [] => []
  | fuel + 1, prevW, c :: cs =>
    match (if prevW then none else tryStyleAttr (c :: cs)) with
    | some rest => removeStyleAttrsAux fuel false rest
    | none => c :: removeStyleAttrsAux fuel (isWordChar c) cs

/-- Wrapper choosing sufficient fuel. -/
def removeStyleAttrs (s : List Char) : List Char := removeStyleAttrsAux s.length false s

/-- Rest of input after the first `>`, if any (the consumption of
    `[^>]*>` inside a tag). -/
def findGt : List Char → Option (List Char)
  | [] => none
  | c :: cs => if c = '>' then some cs else findGt cs

/-- Match the regex tail `(?:\s[^>]*)?\/?>` at `s`, returning the rest. -/
def tagTail : List Char → Option (List Char)
  | [] => none
  | c :: cs =>
    if c = '>' then some cs
    else if c = '/' then
      match cs with
      | d :: ds => if d = '>' then some ds else none
      | [] => none
    else if isJsSpace c then findGt cs
    else none

/-- Match `<\/?(?:n1|n2|...)(?:\s[^>]*)?\/?>` at the start of `s`, with the
    name alternatives tried in the given order; returns the rest. -/
def tryTagAt (names : List (List Char)) : List Char → Option (List Char)
  | c :: cs =>
    if c = '<' then
      let body := match cs with
                  | d :: ds => if d = '/' then ds else cs
                  | [] => cs
      names.findSome? (fun nm => (matchCi nm body).bind tagTail)
    else none
  | [] => none

/-- Matcher wrapping `tryTagAt` for the generic scan. -/
def namedTagMatcher (names : List (List Char)) (repl : List Char) (t : List Char) :
    Option (List Char × List Char) :=
  (tryTagAt names t).map (fun rest => (repl, rest))

/-- Global replacement of the named-tag pattern by `repl`. -/
def replaceNamedTags (names : List (List Char)) (repl s : List Char) : List Char :=
  scanG (namedTagMatcher names repl) s.length s

/-- Name alternatives of the inline-formatting-tag pass, in regex order. -/
def inlineTagNames : List (List Char) :=
  ["b".data, "i".data, "u".data, "strong".data, "em".data, "font".data,
   "small".data, "sub".data, "sup".data, "span".data, "a".data]

/-- Matcher for `([.!?:;])<\/?br(?:\s[^>]*)?\/?>` at the current position;
    the replacement is the captured punctuation followed by one space. -/
def brPunctMatcher : List Char → Option (List Char × List Char)
  | c :: cs =>
    if c = '.' ∨ c = '!' ∨ c = '?' ∨ c = ':' ∨ c = ';' then
      (tryTagAt ["br".data] cs).map (fun rest => ([c, ' '], rest))
    else none
  | [] => none

/-- Global replacement of `([.!?:;])<\/?br(?:\s[^>]*)?\/?>` by `$1 `. -/
def brAfterPunct (s : List Char) : List Char := scanG brPunctMatcher s.length s

/-- Matcher for `<[^>]*>` at the current position (replacement: one space). -/
def anyTagMatcher : List Char → Option (List Char × List Char)
  | c :: cs =>
    if c = '<' then (findGt cs).map (fun rest => ([' '], rest)) else none
  | [] => none

/-- Global replacement of every remaining `<[^>]*>` by one space. -/
def replaceAllTags (s : List Char) : List Char := scanG anyTagMatcher s.length s

/-- `cleaned.replace(/<[^<]*$/g, '')`: drop everything from the last `<`
    (if any) to the end of the string. -/
def removeTrailingLt (s : List Char) : List Char :=
  match splitAtLit "<".data s.reverse with
  | some (_, afterRev) => afterRev.reverse
  | none => s

/-- The control-whitespace class `[\t\r\f\v]`. -/
def isCtrlWs (c : Char) : Bool :=
  c.toNat = 9 || c.toNat = 13 || c.toNat = 12 || c.toNat = 11

/-- `[\t\r\f\v]` → one space (charwise). -/
def mapCtrlWs (s : List Char) : List Char :=
  s.map (fun c => if isCtrlWs c then ' ' else c)

/-- Global `/ {3,}/ → "  "`: each maximal run of three or more spaces
    becomes exactly two. -/
def collapseSpacesAux : Nat → List Char → List Char
  | 0, s => s
  | _ + 1, [] => []
  | fuel + 1, c :: cs =>
    if c = ' ' then
      let run := 1 + (cs.takeWhile (fun d => d = ' ')).length
      let rest := cs.dropWhile (fun d => d = ' ')
      (if 3 ≤ run then [' ', ' '] else List.replicate run ' ') ++
        collapseSpacesAux fuel rest
    else c :: collapseSpacesAux fuel cs

/-- Wrapper choosing sufficient fuel. -/
def collapseSpaces (s : List Char) : List Char := collapseSpacesAux s.length s

/-- Global `/\n+/ → "\n"`. -/
def collapseNewlinesAux : Nat → List Char → List Char
  | 0, s => s
  | _ + 1, [] => []
  | fuel + 1, c :: cs =>
    if c = '\n' then
      '\n' :: collapseNewlinesAux fuel (cs.dropWhile (fun d => d = '\n'))
    else c :: collapseNewlinesAux fuel cs

/-- Wrapper choosing sufficient fuel. -/
def collapseNewlines (s : List Char) : List Char := collapseNewlinesAux s.length s

/-- Global `/ +\n/ → "\n"`. -/
def stripSpaceBeforeNlAux : Nat → List Char → List Char
  | 0, s => s
  | _ + 1, [] => []
  | fuel + 1, c :: cs =>
    if c = ' ' then
      let rest := cs.dropWhile (fun d => d = ' ')
      if rest.head? = some '\n' then '\n' :: stripSpaceBeforeNlAux fuel rest.tail
      else (' ' :: cs.takeWhile (fun d => d = ' ')) ++ stripSpaceBeforeNlAux fuel rest
    else c :: stripSpaceBeforeNlAux fuel cs

/-- Wrapper choosing sufficient fuel. -/
def stripSpaceBeforeNl (s : List Char) : List Char := stripSpaceBeforeNlAux s.length s

/-- Global `/\n +/ → "\n"`. -/
def stripSpaceAfterNlAux : Nat → List Char → List Char
  | 0, s => s
  | _ + 1, [] => []
  | fuel + 1, c :: cs =>
    if c = '\n' then
      '\n' :: stripSpaceAfterNlAux fuel (cs.dropWhile (fun d => d = ' '))
    else c :: stripSpaceAfterNlAux fuel cs

/-- Wrapper choosing sufficient fuel. -/
def stripSpaceAfterNl (s : List Char) : List Char := stripSpaceAfterNlAux s.length s

/-- `String.prototype.trim`. -/
def jsTrim (s : List Char) : List Char :=
  (((s.dropWhile isJsSpace).reverse).dropWhile isJsSpace).reverse

/-- `text.replace(/^\n+/, '')`. -/
def stripLeadNl (s : List Char) : List Char := s.dropWhile (fun c => c = '\n')

/-- `text.replace(/\n+$/, '')`. -/
def stripTrailNl (s : List Char) : List Char :=
  (s.reverse.dropWhile (fun c => c = '\n')).reverse

/-- `/^\s*&nbsp;/.test(originalText)` (case-sensitive literal). -/
def hasLeadingEntitySpace (s : List Char) : Bool :=
  (matchLit "&nbsp;".data (s.dropWhile isJsSpace)).isSome

/-- `/&nbsp;\s*$/.test(originalText)` (case-sensitive literal). -/
def hasTrailingEntitySpace (s : List Char) : Bool :=
  (matchLit ";psbn&".data (s.reverse.dropWhile isJsSpace)).isSome

/-- The markup-removal passes of `stripHtmlTags`, in source order: comment
    loop, script/style blocks, style attributes, the named-tag passes, the
    generic tag passes and the trailing-`<` cleanup. -/
def stripMarkupPasses (text : List Char) : List Char :=
  let c1 := stripComments text
  let c2 := removeLazyBlocksCi "<script".data "</script>".data false c1
  let c3 := removeLazyBlocksCi "<style".data "</style>".data false c2
  let c4 := removeStyleAttrs c3
  let c5 := replaceNamedTags inlineTagNames [] c4
  let c6 := replaceNamedTags ["hr".data] [] c5
  let c7 := brAfterPunct c6
  let c8 := replaceNamedTags ["br".data] [] c7
  let c9 := replaceNamedTags ["p".data, "div".data] [' '] c8
  let c10 := replaceAllTags c9
  removeTrailingLt c10

/-- The whitespace-cleanup passes of `stripHtmlTags`, in source order. -/
def whitespacePasses (text : List Char) : List Char :=
  let c13 := mapCtrlWs text
  let c14 := collapseSpaces c13
  let c15 := collapseNewlines c14
  stripSpaceAfterNl (stripSpaceBeforeNl c15)

/-- Everything of `stripHtmlTags` before the conditional final trim. -/
def stripPipelineCore (text : List Char) : List Char :=
  whitespacePasses (decodeHtmlEntities (stripMarkupPasses text))

/-- `stripHtmlTags` of the source: the ordered pipeline of markup-removal
    passes, internal entity decoding, whitespace normalisation and the
    conditional final trim. -/
def stripHtmlTags (text : List Char) : List Char :=
  let c16 := stripPipelineCore text
  if hadHtmlTags text || hadHtmlComments text || hadHtmlEntities text then
    if hasLeadingEntitySpace text = false ∧ hasTrailingEntitySpace text = false then
      jsTrim c16
    else
      let d1 := if hasLeadingEntitySpace text then c16 else c16.dropWhile (fun c => c = ' ')
      if hasTrailingEntitySpace text then d1
      else (d1.reverse.dropWhile (fun c => c = ' ')).reverse
  else
    stripTrailNl (stripLeadNl c16)

example : stripHtmlTags "<b>Bold</b>".data = "Bold".data := by decide
example : stripHtmlTags "<b>Bold</b> and <i>Italic</i>".data = "Bold and Italic".data := by decide
example : stripHtmlTags "Text with < and > characters".data = "Text with  characters".data := by decide
example : stripHtmlTags "Text<script>alert(1)</script>more".data = "Textmore".data := by decide
example : stripHtmlTags "<script>alert(1)</script>Safe text".data = "Safe text".data := by decide
example : stripHtmlTags "&amp; &lt; &gt;".data = ['&', ' ', '<', ' ', '>'] := by decide
example : stripHtmlTags "&nbsp;Text&nbsp;".data = " Text ".data := by decide
example : stripHtmlTags "Text<".data = "Text".data := by decide
example : stripHtmlTags "Text< incomplete tag".data = "Text".data := by decide
example : stripHtmlTags "&lt;".data = "<".data := by decide
example : stripHtmlTags "<".data = "".data := by decide
example : stripHtmlTags "  hi  ".data = "  hi  ".data := by decide
example : stripHtmlTags "a\n \nb".data = "a\n\nb".data := by decide
example : stripHtmlTags "a\n\nb".data = "a\nb".data := by decide
example : stripHtmlTags "<font color=\"red\">Red text</font>".data = "Red text".data := by decide
example : stripHtmlTags "Hello".data = "Hello".data := by decide
example : stripHtmlTags "<!DOCTYPE html>".data = "".data := by decide

/-! ## parseSrt -/

/-- First pass of line-ending normalisation: `replace(/\r\n/g, '\n')`. -/
def normalizeCrLf : List Char → List Char
  | [] => []
  | [c] => [c]
  | c :: d :: cs =>
    if c = '\r' ∧ d = '\n' then '\n' :: normalizeCrLf cs
    else c :: normalizeCrLf (d :: cs)

/-- `source.replace(/\r\n/g, '\n').replace(/\r/g, '\n')`. -/
def normalizeNewlines (s : List Char) : List Char :=
  (normalizeCrLf s).map (fun c => if c = '\r' then '\n' else c)

/-- `normalized.split(/\n\n+/)`: cut at each maximal run of two or more
    newlines. -/
def splitBlocksAux : Nat → List Char → List Char → List (List Char)
  | 0, cur, s => [cur.reverse ++ s]
  | _ + 1, cur, [] => [cur.reverse]
  | fuel + 1, cur, c :: cs =>
    if c = '\n' ∧ cs.head? = some '\n' then
      cur.reverse :: splitBlocksAux fuel [] (cs.dropWhile (fun d => d = '\n'))
    else splitBlocksAux fuel (c :: cur) cs

/-- Wrapper choosing sufficient fuel. -/
def splitBlocks (s : List Char) : List (List Char) := splitBlocksAux s.length [] s

/-- `block.split('\n')` (keeps empty segments). -/
def splitLines : List Char → List (List Char)
  | [] => [[]]
  | c :: cs =>
    if c = '\n' then [] :: splitLines cs
    else
      match splitLines cs with
      | [] => [[c]]
      | l :: ls => (c :: l) :: ls

/-- Leading run of decimal digits, if nonempty. -/
def parseDigits (s : List Char) : Option Nat :=
  let ds := s.takeWhile isDigitCh
  if ds = [] then none else some (digitsToNat ds)

/-- `parseInt(str, 10)`: skip whitespace, optional sign, then the leading
    digit run; `NaN` (here `none`) when no digit follows. -/
def jsParseInt (s : List Char) : Option Int :=
  match s.dropWhile isJsSpace with
  | '-' :: t => (parseDigits t).map (fun n => -(n : Int))
  | '+' :: t => (parseDigits t).map (fun n => (n : Int))
  | t => (parseDigits t).map (fun n => (n : Int))

/-- The eight captured fields of the timing-line regex. -/
structure Timecode where
  h1 : Nat
  m1 : Nat
  s1 : Nat
  ms1 : Nat
  h2 : Nat
  m2 : Nat
  s2 : Nat
  ms2 : Nat
deriving DecidableEq

/-- Two digit characters (`\d{2}`) as a number. -/
def read2 : List Char → Option (Nat × List Char)
  | a :: b :: rest =>
    if isDigitCh a ∧ isDigitCh b then
      some ((a.toNat - 48) * 10 + (b.toNat - 48), rest)
    else none
  | _ => none

/-- Three digit characters (`\d{3}`) as a number. -/
def read3 : List Char → Option (Nat × List Char)
  | a :: b :: c :: rest =>
    if isDigitCh a ∧ isDigitCh b ∧ isDigitCh c then
      some (((a.toNat - 48) * 10 + (b.toNat - 48)) * 10 + (c.toNat - 48), rest)
    else none
  | _ => none

/-- Consume one expected character. -/
def expectCh (c : Char) : List Char → Option (List Char)
  | d :: rest => if d = c then some rest else none
  | [] => none

/-- One `(\d{2}):(\d{2}):(\d{2}),(\d{3})` stamp of the timing-line regex. -/
def readStamp (s : List Char) : Option (Nat × Nat × Nat × Nat × List Char) :=
  match read2 s with
  | some (h, r1) =>
    match expectCh ':' r1 with
    | some r2 =>
      match read2 r2 with
      | some (m, r3) =>
        match expectCh ':' r3 with
        | some r4 =>
          match read2 r4 with
          | some (sec, r5) =>
            match expectCh ',' r5 with
            | some r6 =>
              match read3 r6 with
              | some (ms, r7) => some (h, m, sec, ms, r7)
              | none => none
            | none => none
          | none => none
        | none => none
      | none => none
    | none => none
  | none => none

/-- The anchored timing-line regex
    `^(\d{2}):(\d{2}):(\d{2}),(\d{3})\s*-->\s*(\d{2}):(\d{2}):(\d{2}),(\d{3})$`. -/
def matchTimecode (s : List Char) : Option Timecode :=
  match readStamp s with
  | some (a1, b1, c1, d1, r7) =>
    match expectCh '-' (r7.dropWhile isJsSpace) with
    | some r9 =>
      match expectCh '-' r9 with
      | some r10 =>
        match expectCh '>' r10 with
        | some r11 =>
          match readStamp (r11.dropWhile isJsSpace) with
          | some (a2, b2, c2, d2, r19) =>
            if r19 = [] then some ⟨a1, b1, c1, d1, a2, b2, c2, d2⟩ else none
          | none => none
        | none => none
      | none => none
    | none => none
  | none => none

/-- `parseTimecode` of the source. -/
def parseTimecode (hours minutes seconds milliseconds : Int) : Int :=
  hours * 3600000 + minutes * 60000 + seconds * 1000 + milliseconds

/-- One subtitle cue, as produced by the parser. -/
structure SrtCue where
  index : Int
  startMs : Int
  endMs : Int
  text : List Char
deriving DecidableEq

/-- The parser's result record. -/
structure SrtParseResult where
  cues : List SrtCue
  errors : List (List Char)
deriving DecidableEq

/-- Decimal digits of a natural number. -/
def natToDigitsAux : Nat → Nat → List Char
  | 0, _ => []
  | _ + 1, 0 => []
  | fuel + 1, n => natToDigitsAux fuel (n / 10) ++ [Char.ofNat (48 + n % 10)]

/-- JavaScript decimal rendering of a nonnegative integer. -/
def natToStr (n : Nat) : List Char := if n = 0 then ['0'] else natToDigitsAux n n

/-- JavaScript decimal rendering of an integer. -/
def intToStr (i : Int) : List Char :=
  if i < 0 then '-' :: natToStr i.natAbs else natToStr i.toNat

/-- Diagnostic for a block with fewer than two nonblank lines. -/
def incompleteBlockMsg (block : List Char) : List Char :=
  "Skipping incomplete block: ".data ++ block.take 50

/-- Diagnostic for an index line that does not parse. -/
def invalidIndexMsg (indexLine : List Char) : List Char :=
  "Invalid index: ".data ++ indexLine

/-- Diagnostic for a timing line that does not match. -/
def invalidTimecodeMsg (timecodeLine : List Char) : List Char :=
  "Invalid timecode format: ".data ++ timecodeLine

/-- Diagnostic for a block whose end time is not after its start time. -/
def endBeforeStartMsg (idx : Int) (timecodeLine : List Char) : List Char :=
  "End time must be after start time in cue ".data ++ intToStr idx ++
    ": ".data ++ timecodeLine

/-- Diagnostic for a cue whose sanitised text is empty. -/
def emptyTextMsg (idx : Int) : List Char :=
  "Empty text in cue ".data ++ intToStr idx

/-- The nonblank lines of a block (`block.split('\n').filter(l => l.trim())`). -/
def blockLines (block : List Char) : List (List Char) :=
  (splitLines block).filter (fun l => jsTrim l ≠ [])

/-- The trimmed index line of a block. -/
def indexLineOf (block : List Char) : List Char := jsTrim ((blockLines block).getD 0 [])

/-- The trimmed timing line of a block. -/
def timecodeLineOf (block : List Char) : List Char := jsTrim ((blockLines block).getD 1 [])

/-- The body of the per-block loop of `parseSrt`: at most one cue and the
    diagnostics the block contributes, in order. -/
def parseBlockResult (block : List Char) : Option SrtCue × List (List Char) :=
  let lines := blockLines block
  if lines.length < 2 then (none, [incompleteBlockMsg block])
  else
    let indexLine := indexLineOf block
    match jsParseInt indexLine with
    | none => (none, [invalidIndexMsg indexLine])
    | some idx =>
      let timecodeLine := timecodeLineOf block
      match matchTimecode timecodeLine with
      | none => (none, [invalidTimecodeMsg timecodeLine])
      | some tc =>
        let startTime := parseTimecode tc.h1 tc.m1 tc.s1 tc.ms1
        let endTime := parseTimecode tc.h2 tc.m2 tc.s2 tc.ms2
        if endTime ≤ startTime then (none, [endBeforeStartMsg idx timecodeLine])
        else
          let text0 := List.intercalate ['\n'] (lines.drop 2)
          let text1 := stripTrailNl (stripLeadNl text0)
          let text2 := decodeHtmlEntities (stripHtmlTags text1)
          (some ⟨idx, startTime, endTime, text2⟩,
            if text2 = [] then [emptyTextMsg idx] else [])

/-- `parseSrt` of the source. -/
def parseSrt (source : List Char) : SrtParseResult :=
  let normalized := normalizeNewlines source
  let blocks := (splitBlocks normalized).filter (fun b => jsTrim b ≠ [])
  let results := blocks.map parseBlockResult
  { cues := results.filterMap Prod.fst
    errors := (results.map Prod.snd).flatten }

example :
    parseSrt "1\n00:00:01,000 --> 00:00:03,000\nHello".data =
      { cues := [{ index := 1, startMs := 1000, endMs := 3000, text := "Hello".data }]
        errors := [] } := by decide

example :
    parseSrt "1\n00:00:03,000 --> 00:00:01,000\nHello".data =
      { cues := []
        errors := ["End time must be after start time in cue 1: 00:00:03,000 --> 00:00:01,000".data] } := by
  decide

example :
    parseSrt "0\n00:00:01,000 --> 00:00:02,000\nHi".data =
      { cues := [{ index := 0, startMs := 1000, endMs := 2000, text := "Hi".data }]
        errors := [] } := by decide

example : (parseSrt "1\n00:00:01,000 --> 00:00:02,000\n<!DOCTYPE html>".data).cues.length = 1 := by
  decide

/-! ## XmlEmitter validation (`validateXmlInput` / `sanitizeXmlInput`) -/

/-- `/<!(?:DOCTYPE|ENTITY)/i`. -/
def testDoctypeEntity (s : List Char) : Bool :=
  containsCiSub "<!doctype".data s || containsCiSub "<!entity".data s

/-- `/<!-{2,}/`. -/
def testCommentInj (s : List Char) : Bool := containsSub "<!--".data s

/-- `/<!\[CDATA\[/i`. -/
def testCdataOpen (s : List Char) : Bool := containsCiSub "<![cdata[".data s

/-- `/\]\]>/`. -/
def testCdataClose (s : List Char) : Bool := containsSub "]]>".data s

/-- `/<\?xml/i`. -/
def testXmlDecl (s : List Char) : Bool := containsCiSub "<?xml".data s

/-- `/<script[^>]*>/i`: a case-insensitive `<script` with a later `>`. -/
def testScriptTag (s : List Char) : Bool :=
  match splitAtCi "<script".data s with
  | some (_, after) => after.contains '>'
  | none => false

/-- `/javascript:/i`. -/
def testJsProto (s : List Char) : Bool := containsCiSub "javascript:".data s

/-- `/data:/i`. -/
def testDataProto (s : List Char) : Bool := containsCiSub "data:".data s

/-- Does the input match any entry of the emitter's `dangerousPatterns`? -/
def matchesDangerousPattern (input : List Char) : Bool :=
  testDoctypeEntity input || testCommentInj input || testCdataOpen input ||
  testCdataClose input || testXmlDecl input || testScriptTag input ||
  testJsProto input || testDataProto input

/-- The per-pattern rejection reason of `validateXmlInput`. -/
def dangerReason (src : List Char) : List Char :=
  "Potentially dangerous XML pattern detected: ".data ++ src

/-- `validateXmlInput` of the source: the first matching pattern produces a
    reason carrying that pattern's source text, `none` when the input is
    clean. -/
def validateXmlInput (input : List Char) : Option (List Char) :=
  if testDoctypeEntity input then some (dangerReason "<!(?:DOCTYPE|ENTITY)".data)
  else if testCommentInj input then some (dangerReason "<!-\x7b2,\x7d".data)
  else if testCdataOpen input then some (dangerReason "<!\\[CDATA\\[".data)
  else if testCdataClose input then some (dangerReason "\\]\\]>".data)
  else if testXmlDecl input then some (dangerReason "<\\?xml".data)
  else if testScriptTag input then some (dangerReason "<script[^>]*>".data)
  else if testJsProto input then some (dangerReason "javascript:".data)
  else if testDataProto input then some (dangerReason "data:".data)
  else none

/-- Rest of input after a `[^>]*\?>` tail: the first `>` must be directly
    preceded by a `?`. -/
def tryCloseQMark (t : List Char) : Option (List Char) :=
  match splitAtLit ">".data t with
  | some (before, after) => if before.getLast? = some '?' then some after else none
  | none => none

/-- Global removal of `/<\?xml[^>]*\?>/gi`. -/
def removeXmlDecl (s : List Char) : List Char :=
  scanG (fun t => ((matchCi "<?xml".data t).bind tryCloseQMark).map (fun rest => ([], rest)))
    s.length s

/-- Global removal of `/<!DOCTYPE[^>]*>/gi`. -/
def removeDoctype (s : List Char) : List Char :=
  scanG (fun t => ((matchCi "<!doctype".data t).bind findGt).map (fun rest => ([], rest)))
    s.length s

/-- Global removal of `/<\?[^>]*\?>/g` (processing instructions). -/
def removePI (s : List Char) : List Char :=
  scanG (fun t => ((matchLit "<?".data t).bind tryCloseQMark).map (fun rest => ([], rest)))
    s.length s

/-- Literal (case-sensitive) variant of the lazy-block removal, for the
    comment and CDATA passes of `sanitizeXmlInput`. -/
def removeLazyBlocksLitAux (opn cls : List Char) (keepInner : Bool) :
    Nat → List Char → List Char
  | 0, s => s
  | fuel + 1, s =>
    match splitAtLit opn s with
    | none => s
    | some (before, afterOpen) =>
      match splitAtLit cls afterOpen with
      | none => s
      | some (inner, afterClose) =>
        before ++ (if keepInner then inner else []) ++
          removeLazyBlocksLitAux opn cls keepInner fuel afterClose

/-- Wrapper choosing sufficient fuel. -/
def removeLazyBlocksLit (opn cls : List Char) (keepInner : Bool) (s : List Char) :
    List Char :=
  removeLazyBlocksLitAux opn cls keepInner s.length s

instance {ε α : Type} [DecidableEq ε] [DecidableEq α] : DecidableEq (Except ε α) :=
  fun x y =>
    match x, y with
    | .error a, .error b =>
      if h : a = b then isTrue (by rw [h]) else isFalse (by simp [h])
    | .ok a, .ok b =>
      if h : a = b then isTrue (by rw [h]) else isFalse (by simp [h])
    | .error _, .ok _ => isFalse (by simp)
    | .ok _, .error _ => isFalse (by simp)

/-- The message prefix of the hard validation error. -/
def xmlSecurityMsg (reason : List Char) : List Char :=
  "XML security validation failed: ".data ++ reason

/-- `sanitizeXmlInput` of the source: throw (here: `Except.error`) when
    validation rejects, otherwise apply the structural-sanitisation
    replacements. -/
def sanitizeXmlInput (input : List Char) : Except (List Char) (List Char) :=
  match validateXmlInput input with
  | some reason => Except.error (xmlSecurityMsg reason)
  | none =>
    let a := removeXmlDecl input
    let b := removeDoctype a
    let c := removeLazyBlocksLit "<!--".data "-->".data false b
    let d := removeLazyBlocksLit "<![CDATA[".data "]]>".data true c
    Except.ok (removePI d)

example :
    sanitizeXmlInput "<!DOCTYPE html>".data =
      Except.error (xmlSecurityMsg (dangerReason "<!(?:DOCTYPE|ENTITY)".data)) := by decide
example : sanitizeXmlInput "hello world".data = Except.ok "hello world".data := by decide
example : (sanitizeXmlInput "see data:text".data).isOk = false := by decide
example : (sanitizeXmlInput "a<script x>z".data).isOk = false := by decide

example :
    stripHtmlTags ("style=style=".data ++ [quoteChar, 'q', quoteChar, quoteChar, 'x', quoteChar]) =
      "style=".data ++ [quoteChar, 'x', quoteChar] := by decide
example : stripHtmlTags ("style=".data ++ [quoteChar, 'x', quoteChar]) = [] := by decide

example : decodeHtmlEntities "&amp;".data = "&".data := by decide
example : decodeHtmlEntities "&amp;amp;".data = "&amp;".data := by decide
example : decodeHtmlEntities "&amp;lt;".data = "<".data := by decide
example : decodeHtmlEntities "&#65;&#66;".data = "AB".data := by decide
example : decodeHtmlEntities "&#x41;".data = "A".data := by decide
example : decodeHtmlEntities "&#55296;".data = "".data := by decide
example : decodeHtmlEntities "&#1114111;".data = [Char.ofNat 1114111] := by decide
example : decodeHtmlEntities "&#1114112;".data = "".data := by decide
example : decodeHtmlEntities "&NBSP;x".data = " x".data := by decide

/-! ## Claim theorems (concrete parts) -/

/-- C1: every cue text matching one of the emitter's fixed dangerous
    patterns is rejected by `sanitizeXmlInput` (via `validateXmlInput`)
    with a hard error carrying a descriptive reason, before any
    sanitisation output is produced; in particular a text consisting of
    `<!DOCTYPE html>` is rejected, while `parseSrt` itself still accepts
    (and emits a cue for) the surrounding block. -/
theorem sanitizeXmlInput_rejects_dangerous :
    (∀ input : List Char, matchesDangerousPattern input = true →
      ∃ r, validateXmlInput input = some r ∧
        sanitizeXmlInput input = Except.error (xmlSecurityMsg r)) ∧
    sanitizeXmlInput "<!DOCTYPE html>".data =
      Except.error (xmlSecurityMsg (dangerReason "<!(?:DOCTYPE|ENTITY)".data)) ∧
    (parseSrt "1\n00:00:01,000 --> 00:00:02,000\n<!DOCTYPE html>".data).cues.length = 1 := by
  refine ⟨?_, by decide, by decide⟩
  intro input h
  have hv : ∃ r, validateXmlInput input = some r := by
    unfold validateXmlInput
    by_cases h1 : testDoctypeEntity input = true
    · exact ⟨_, by rw [if_pos h1]⟩
    · rw [if_neg h1]
      by_cases h2 : testCommentInj input = true
      · exact ⟨_, by rw [if_pos h2]⟩
      · rw [if_neg h2]
        by_cases h3 : testCdataOpen input = true
        · exact ⟨_, by rw [if_pos h3]⟩
        · rw [if_neg h3]
          by_cases h4 : testCdataClose input = true
          · exact ⟨_, by rw [if_pos h4]⟩
          · rw [if_neg h4]
            by_cases h5 : testXmlDecl input = true
            · exact ⟨_, by rw [if_pos h5]⟩
            · rw [if_neg h5]
              by_cases h6 : testScriptTag input = true
              · exact ⟨_, by rw [if_pos h6]⟩
              · rw [if_neg h6]
                by_cases h7 : testJsProto input = true
                · exact ⟨_, by rw [if_pos h7]⟩
                · rw [if_neg h7]
                  by_cases h8 : testDataProto input = true
                  · exact ⟨_, by rw [if_pos h8]⟩
                  · exfalso
                    unfold matchesDangerousPattern at h
                    simp only [Bool.or_eq_true] at h
                    rcases h with ((((((ha | hb) | hc) | hd) | he) | hf) | hg) | hh
                    · exact h1 ha
                    · exact h2 hb
                    · exact h3 hc
                    · exact h4 hd
                    · exact h5 he
                    · exact h6 hf
                    · exact h7 hg
                    · exact h8 hh
  obtain ⟨r, hr⟩ := hv
  refine ⟨r, hr, ?_⟩
  unfold sanitizeXmlInput
  rw [hr]

/-- Witness for C1 at a concrete dangerous input. -/
theorem sanitizeXmlInput_rejects_dangerous_witness :
    ∃ r, validateXmlInput "javascript:alert(1)".data = some r ∧
      sanitizeXmlInput "javascript:alert(1)".data = Except.error (xmlSecurityMsg r) :=
  sanitizeXmlInput_rejects_dangerous.1 "javascript:alert(1)".data (by decide)

/-- C2 counterexample: the output of `stripHtmlTags` is not always free of
    raw angle brackets: on the input `&lt;`, entity decoding reintroduces a
    literal `<` into the final output. -/
theorem stripHtmlTags_can_output_angle_bracket :
    stripHtmlTags "&lt;".data = "<".data ∧ '<' ∈ stripHtmlTags "&lt;".data := by
  constructor <;> decide

/-- C2 (amended): complete tag-like `<...>` sequences are replaced and
    `<script>…</script>` blocks are removed with their content, so the
    scenario input yields exactly `Safe text` with no `<script` substring;
    however the no-raw-angle-bracket guarantee does not hold for every
    input (see the counterexample), since decoded entities and bare
    brackets that never form a tag can survive. -/
theorem stripHtmlTags_scriptBlock_scenario :
    stripHtmlTags "<script>alert(1)</script>Safe text".data = "Safe text".data ∧
    containsSub "<script".data
      (stripHtmlTags "<script>alert(1)</script>Safe text".data) = false ∧
    containsSub "<".data (stripHtmlTags "<script>alert(1)</script>Safe text".data) = false := by
  refine ⟨by decide, by decide, by decide⟩

/-- C5 counterexample: `parseSrt` accepts an index of `0` (the `index ≥ 1`
    part of the claimed invariant fails): only `NaN` indices are rejected. -/
theorem parseSrt_accepts_index_zero :
    (parseSrt "0\n00:00:01,000 --> 00:00:02,000\nHi".data).cues =
      [{ index := 0, startMs := 1000, endMs := 2000, text := "Hi".data }] ∧
    ¬ (1 ≤ (0 : Int)) := by
  refine ⟨by decide, by decide⟩

/-- C6 counterexample: `decodeHtmlEntities "&amp;lt;"` is `"<"`, not the
    claimed `"&lt;"`: the named-entity passes run sequentially, so the
    `&lt;` produced by the `&amp;` pass is decoded by the later `&lt;`
    pass. -/
theorem decodeHtmlEntities_decodes_double_encoded_lt :
    decodeHtmlEntities "&amp;lt;".data = "<".data ∧ "<".data ≠ "&lt;".data := by
  refine ⟨by decide, by decide⟩

/-- C6 (amended): each individual entity pass scans once and never
    re-scans its own replacement text, so `&amp;amp;` decodes to `&amp;`;
    but the passes are sequential, so a later pass can decode text produced
    by an earlier pass: `&amp;lt;` decodes all the way to `<`. -/
theorem decodeHtmlEntities_pass_structure :
    decodeHtmlEntities "&amp;amp;".data = "&amp;".data ∧
    decodeHtmlEntities "&amp;lt;".data = "<".data ∧
    decodeHtmlEntities "&amp;#65;".data = "A".data := by
  refine ⟨by decide, by decide, by decide⟩

/-- C7 counterexample: `stripHtmlTags` is not idempotent.  Entity decoding
    can produce markup characters that the second application strips
    (`&lt;`), whitespace normalisation can merge newlines only on the
    second pass (`a\n \nb`), and removing a `style="…"` attribute can
    splice together a new one (`style=style="q""x"`). -/
theorem stripHtmlTags_not_idempotent :
    stripHtmlTags (stripHtmlTags "&lt;".data) ≠ stripHtmlTags "&lt;".data ∧
    stripHtmlTags (stripHtmlTags "a\n \nb".data) ≠ stripHtmlTags "a\n \nb".data ∧
    stripHtmlTags
        (stripHtmlTags ("style=style=".data ++ [quoteChar, 'q', quoteChar, quoteChar, 'x', quoteChar])) ≠
      stripHtmlTags ("style=style=".data ++ [quoteChar, 'q', quoteChar, quoteChar, 'x', quoteChar]) := by
  refine ⟨by decide, by decide, by decide⟩

/-- C10 counterexample: leading/trailing spaces are not trimmed for inputs
    without any HTML indicator, even though the input neither begins nor
    ends with `&nbsp;`: trimming only happens when the input contained
    tags, comments or entities. -/
theorem stripHtmlTags_keeps_plain_spaces :
    stripHtmlTags "  hi  ".data = "  hi  ".data ∧
    (stripHtmlTags "  hi  ".data).head? = some ' ' ∧
    hasLeadingEntitySpace "  hi  ".data = false ∧
    hasTrailingEntitySpace "  hi  ".data = false := by
  refine ⟨by decide, by decide, by decide, by decide⟩

/-! ## C5: timing invariant -/

/-- Any cue produced from a block was built from digit fields through
    `parseTimecode` and survived the duration guard. -/
theorem parseBlockResult_timing (block : List Char) (c : SrtCue)
    (h : (parseBlockResult block).1 = some c) :
    0 ≤ c.startMs ∧ c.startMs < c.endMs := by
  simp only [parseBlockResult] at h
  split at h
  · exact absurd h (by simp)
  · split at h
    · exact absurd h (by simp)
    · split at h
      · exact absurd h (by simp)
      · split at h
        · exact absurd h (by simp)
        · rename_i tc hguard
          simp only [Option.some.injEq] at h
          subst h
          unfold parseTimecode at hguard ⊢
          dsimp only
          omega

/-- C5 (amended): every cue returned by `parseSrt`, for every source,
    satisfies `0 ≤ startMs` and `startMs < endMs` (the claimed `index ≥ 1`
    does not hold; see the counterexample). -/
theorem parseSrt_timing_invariant (source : List Char) (c : SrtCue)
    (hc : c ∈ (parseSrt source).cues) : 0 ≤ c.startMs ∧ c.startMs < c.endMs := by
  unfold parseSrt at hc
  simp only [List.mem_filterMap, List.mem_map] at hc
  obtain ⟨p, ⟨b, hb, hpb⟩, hp⟩ := hc
  exact parseBlockResult_timing b c (by rw [hpb]; exact hp)

/-- Witness for C5 at the scenario-A source and its cue. -/
theorem parseSrt_timing_invariant_witness :
    0 ≤ (1000 : Int) ∧ (1000 : Int) < 3000 :=
  parseSrt_timing_invariant "1\n00:00:01,000 --> 00:00:03,000\nHello".data
    { index := 1, startMs := 1000, endMs := 3000, text := "Hello".data } (by decide)

/-! ## C4: non-positive durations rejected -/

/-- A successful literal match extends along appends. -/
theorem matchLit_extend {p s r : List Char} (t : List Char)
    (h : matchLit p s = some r) : matchLit p (s ++ t) = some (r ++ t) := by
  induction p generalizing s r with
  | nil =>
    simp only [matchLit, Option.some.injEq] at h
    subst h
    rfl
  | cons a ps ih =>
    cases s with
    | nil => simp [matchLit] at h
    | cons c cs =>
      simp only [matchLit] at h ⊢
      split at h
      · rename_i hac
        rw [if_pos hac]
        exact ih h
      · exact absurd h (by simp)

/-- A substring occurrence survives appending on the right. -/
theorem splitAtLit_isSome_append {p a : List Char} (b : List Char)
    (h : (splitAtLit p a).isSome = true) : (splitAtLit p (a ++ b)).isSome = true := by
  induction a with
  | nil =>
    cases p with
    | nil =>
      simp [splitAtLit, matchLit]
      cases b <;> simp [splitAtLit, matchLit]
    | cons q qs => simp [splitAtLit, matchLit] at h
  | cons c cs ih =>
    rw [List.cons_append]
    simp only [splitAtLit] at h ⊢
    cases hm : matchLit p (c :: cs) with
    | some r =>
      have := matchLit_extend b hm
      rw [List.cons_append] at this
      rw [this]
      rfl
    | none =>
      rw [hm] at h
      cases hm2 : matchLit p (c :: (cs ++ b)) with
      | some r => rfl
      | none =>
        have h3 : (splitAtLit p cs).isSome = true := by
          cases hx : splitAtLit p cs with
          | some v => rfl
          | none => rw [hx] at h; simp at h
        have h4 := ih h3
        cases hy : splitAtLit p (cs ++ b) with
        | some v => rfl
        | none => rw [hy] at h4; simp at h4

/-- `containsSub` is monotone under appending on the right. -/
theorem containsSub_append_left {p a : List Char} (b : List Char)
    (h : containsSub p a = true) : containsSub p (a ++ b) = true :=
  splitAtLit_isSome_append b h

/-- C4: a well-formed block whose computed end time is less than or equal
    to its start time produces no cue and exactly the one diagnostic
    containing "after start time"; the result of `parseSrt` is assembled
    independently per block, and the two-block scenario shows a bad block
    leaves the following block unaffected. -/
theorem parseSrt_nonpositive_duration_rejected :
    (∀ (block : List Char) (idx : Int) (tc : Timecode),
      2 ≤ (blockLines block).length →
      jsParseInt (indexLineOf block) = some idx →
      matchTimecode (timecodeLineOf block) = some tc →
      parseTimecode tc.h2 tc.m2 tc.s2 tc.ms2 ≤ parseTimecode tc.h1 tc.m1 tc.s1 tc.ms1 →
      parseBlockResult block = (none, [endBeforeStartMsg idx (timecodeLineOf block)]) ∧
      containsSub "after start time".data (endBeforeStartMsg idx (timecodeLineOf block)) = true) ∧
    (parseSrt "1\n00:00:03,000 --> 00:00:01,000\nHello".data =
      { cues := []
        errors := ["End time must be after start time in cue 1: 00:00:03,000 --> 00:00:01,000".data] }) ∧
    containsSub "after start time".data
      "End time must be after start time in cue 1: 00:00:03,000 --> 00:00:01,000".data = true ∧
    (parseSrt "1\n00:00:03,000 --> 00:00:01,000\nBad\n\n2\n00:00:01,000 --> 00:00:02,000\nGood".data =
      { cues := [{ index := 2, startMs := 1000, endMs := 2000, text := "Good".data }]
        errors := ["End time must be after start time in cue 1: 00:00:03,000 --> 00:00:01,000".data] }) := by
  refine ⟨?_, by decide, by decide, by decide⟩
  intro block idx tc hlen hidx htc hle
  constructor
  · simp only [parseBlockResult]
    rw [if_neg (by omega), hidx]
    dsimp only
    rw [htc]
    dsimp only
    rw [if_pos hle]
  · unfold endBeforeStartMsg
    rw [List.append_assoc, List.append_assoc]
    exact containsSub_append_left _ (by decide)

/-- Witness for C4 at a concrete reversed-timing block. -/
theorem parseSrt_nonpositive_duration_rejected_witness :
    parseBlockResult "1\n00:00:03,000 --> 00:00:01,000\nBad".data =
      (none, [endBeforeStartMsg 1 (timecodeLineOf "1\n00:00:03,000 --> 00:00:01,000\nBad".data)]) ∧
    containsSub "after start time".data
      (endBeforeStartMsg 1 (timecodeLineOf "1\n00:00:03,000 --> 00:00:01,000\nBad".data)) = true :=
  parseSrt_nonpositive_duration_rejected.1 "1\n00:00:03,000 --> 00:00:01,000\nBad".data 1
    ⟨0, 0, 3, 0, 0, 0, 1, 0⟩ (by decide) (by decide) (by decide) (by decide)

/-! ## C10: the trim policy -/

/-- The first surviving character after `dropWhile p` fails `p`. -/
theorem head?_dropWhile_not (p : Char → Bool) (l : List Char) :
    ((l.dropWhile p).head?).all (fun c => !p c) = true := by
  induction l with
  | nil => rfl
  | cons c cs ih =>
    rw [List.dropWhile_cons]
    by_cases h : p c = true
    · rw [if_pos h]; exact ih
    · rw [if_neg h]; simp [h]

/-- A JavaScript-trimmed string neither starts nor ends with whitespace. -/
theorem jsTrim_ends (l : List Char) :
    ((jsTrim l).head?.all (fun c => !isJsSpace c)) = true ∧
    ((jsTrim l).getLast?.all (fun c => !isJsSpace c)) = true := by
  unfold jsTrim
  constructor
  · rw [List.head?_reverse]
    cases hv : ((l.dropWhile isJsSpace).reverse.dropWhile isJsSpace) with
    | nil => simp
    | cons x xs =>
      obtain ⟨pre, hpre⟩ :
          (l.dropWhile isJsSpace).reverse.dropWhile isJsSpace <:+
            (l.dropWhile isJsSpace).reverse :=
        List.dropWhile_suffix isJsSpace
      rw [hv] at hpre
      have h2 : (pre ++ (x :: xs)).getLast? = ((x :: xs).getLast?).or pre.getLast? :=
        List.getLast?_append
      rw [hpre, List.getLast?_reverse] at h2
      cases hx : (x :: xs).getLast? with
      | none => simp at hx
      | some y =>
        rw [hx] at h2
        simp only [Option.or_some] at h2
        rw [← h2]
        exact head?_dropWhile_not isJsSpace l
  · rw [List.getLast?_reverse]
    exact head?_dropWhile_not isJsSpace _

/-- C10 (amended): the final trim only applies when the input contained an
    HTML indicator (a complete tag-like span, a comment, or an entity); in
    that case, when the original neither begins nor ends with `&nbsp;`, the
    result is fully trimmed (no leading or trailing whitespace); a leading
    or trailing `&nbsp;` in the original suppresses the corresponding side,
    preserving the decoded space.  Inputs with no HTML indicator are not
    trimmed at all (see the counterexample). -/
theorem stripHtmlTags_trim_policy :
    (∀ s : List Char,
      (hadHtmlTags s || hadHtmlComments s || hadHtmlEntities s) = true →
      hasLeadingEntitySpace s = false → hasTrailingEntitySpace s = false →
      ((stripHtmlTags s).head?.all (fun c => !isJsSpace c)) = true ∧
      ((stripHtmlTags s).getLast?.all (fun c => !isJsSpace c)) = true) ∧
    stripHtmlTags "&nbsp;hi".data = " hi".data ∧
    stripHtmlTags "hi&nbsp;".data = "hi ".data := by
  refine ⟨?_, by decide, by decide⟩
  intro s hflags hl ht
  have hrw : stripHtmlTags s = jsTrim (stripPipelineCore s) := by
    unfold stripHtmlTags
    rw [hflags, hl, ht]
    simp
  rw [hrw]
  exact jsTrim_ends _

/-- Witness for C10 at a concrete tagged input. -/
theorem stripHtmlTags_trim_policy_witness :
    ((stripHtmlTags "<b> hi </b> ".data).head?.all (fun c => !isJsSpace c)) = true ∧
    ((stripHtmlTags "<b> hi </b> ".data).getLast?.all (fun c => !isJsSpace c)) = true :=
  stripHtmlTags_trim_policy.1 "<b> hi </b> ".data (by decide) (by decide) (by decide)

/-! ## C3: the timing formula -/

/-- Two decimal digits with a leading zero (field values below 100). -/
def pad2 (n : Nat) : List Char := [Nat.digitChar (n / 10), Nat.digitChar (n % 10)]

/-- Three decimal digits with leading zeros (field values below 1000). -/
def pad3 (n : Nat) : List Char :=
  [Nat.digitChar (n / 100), Nat.digitChar (n / 10 % 10), Nat.digitChar (n % 10)]

/-- A timing line `HH:MM:SS,mmm --> HH:MM:SS,mmm` built from eight fields. -/
def mkTimecodeLine (a1 b1 c1 d1 a2 b2 c2 d2 : Nat) : List Char :=
  pad2 a1 ++ ':' :: (pad2 b1 ++ ':' :: (pad2 c1 ++ ',' :: (pad3 d1 ++
    ' ' :: '-' :: '-' :: '>' :: ' ' ::
    (pad2 a2 ++ ':' :: (pad2 b2 ++ ':' :: (pad2 c2 ++ ',' :: pad3 d2))))))

/-- A one-cue SRT source: index line `1`, the given timing line, text `Hello`. -/
def mkSingleCueSrc (a1 b1 c1 d1 a2 b2 c2 d2 : Nat) : List Char :=
  '1' :: '\n' :: (mkTimecodeLine a1 b1 c1 d1 a2 b2 c2 d2 ++ '\n' :: "Hello".data)

example : mkSingleCueSrc 0 0 1 0 0 0 3 0 = "1\n00:00:01,000 --> 00:00:03,000\nHello".data := by
  decide

theorem digitChar_isDigit {k : Nat} (h : k < 10) : isDigitCh (Nat.digitChar k) = true := by
  interval_cases k <;> decide

theorem digitChar_toNat {k : Nat} (h : k < 10) : (Nat.digitChar k).toNat = 48 + k := by
  interval_cases k <;> decide

theorem digitChar_not_space {k : Nat} (h : k < 10) : isJsSpace (Nat.digitChar k) = false := by
  interval_cases k <;> decide

theorem isDigitCh_ne_nl_cr {c : Char} (h : isDigitCh c = true) : c ≠ '\n' ∧ c ≠ '\r' :=
  ⟨fun he => absurd h (by rw [he]; decide), fun he => absurd h (by rw [he]; decide)⟩

theorem expectCh_cons (c : Char) (t : List Char) : expectCh c (c :: t) = some t := by
  simp [expectCh]

theorem read2_pad2 {n : Nat} (h : n < 100) (r : List Char) :
    read2 (pad2 n ++ r) = some (n, r) := by
  have h1 : n / 10 < 10 := by omega
  have h2 : n % 10 < 10 := by omega
  simp only [pad2, List.cons_append, List.nil_append, read2]
  rw [if_pos ⟨digitChar_isDigit h1, digitChar_isDigit h2⟩]
  rw [digitChar_toNat h1, digitChar_toNat h2]
  have he : (48 + n / 10 - 48) * 10 + (48 + n % 10 - 48) = n := by omega
  rw [he]

theorem read3_pad3 {n : Nat} (h : n < 1000) (r : List Char) :
    read3 (pad3 n ++ r) = some (n, r) := by
  have h1 : n / 100 < 10 := by omega
  have h2 : n / 10 % 10 < 10 := by omega
  have h3 : n % 10 < 10 := by omega
  simp only [pad3, List.cons_append, List.nil_append, read3]
  rw [if_pos ⟨digitChar_isDigit h1, digitChar_isDigit h2, digitChar_isDigit h3⟩]
  rw [digitChar_toNat h1, digitChar_toNat h2, digitChar_toNat h3]
  have he : ((48 + n / 100 - 48) * 10 + (48 + n / 10 % 10 - 48)) * 10 + (48 + n % 10 - 48) = n := by
    omega
  rw [he]

theorem readStamp_pad {a b c d : Nat} (ha : a < 100) (hb : b < 100) (hc : c < 100)
    (hd : d < 1000) (r : List Char) :
    readStamp (pad2 a ++ ':' :: (pad2 b ++ ':' :: (pad2 c ++ ',' :: (pad3 d ++ r)))) =
      some (a, b, c, d, r) := by
  unfold readStamp
  rw [read2_pad2 ha]
  dsimp only
  rw [expectCh_cons]
  dsimp only
  rw [read2_pad2 hb]
  dsimp only
  rw [expectCh_cons]
  dsimp only
  rw [read2_pad2 hc]
  dsimp only
  rw [expectCh_cons]
  dsimp only
  rw [read3_pad3 hd]

theorem dropWhile_ws_pad2 {n : Nat} (h : n < 100) (t : List Char) :
    (pad2 n ++ t).dropWhile isJsSpace = pad2 n ++ t := by
  simp only [pad2, List.cons_append]
  rw [List.dropWhile_cons, if_neg (by simp [digitChar_not_space (show n / 10 < 10 by omega)])]

theorem matchTimecode_mk {a1 b1 c1 d1 a2 b2 c2 d2 : Nat}
    (ha1 : a1 < 100) (hb1 : b1 < 100) (hc1 : c1 < 100) (hd1 : d1 < 1000)
    (ha2 : a2 < 100) (hb2 : b2 < 100) (hc2 : c2 < 100) (hd2 : d2 < 1000) :
    matchTimecode (mkTimecodeLine a1 b1 c1 d1 a2 b2 c2 d2) =
      some ⟨a1, b1, c1, d1, a2, b2, c2, d2⟩ := by
  unfold matchTimecode mkTimecodeLine
  rw [readStamp_pad ha1 hb1 hc1 hd1]
  dsimp only
  rw [List.dropWhile_cons, if_pos (by decide), List.dropWhile_cons, if_neg (by decide)]
  rw [expectCh_cons]
  dsimp only
  rw [expectCh_cons]
  dsimp only
  rw [expectCh_cons]
  dsimp only
  rw [List.dropWhile_cons, if_pos (by decide)]
  rw [dropWhile_ws_pad2 ha2]
  rw [show (pad3 d2 : List Char) = pad3 d2 ++ [] from (List.append_nil _).symm]
  rw [readStamp_pad ha2 hb2 hc2 hd2]
  dsimp only
  rw [if_pos rfl]

theorem mkTimecodeLine_chars {a1 b1 c1 d1 a2 b2 c2 d2 : Nat}
    (ha1 : a1 < 100) (hb1 : b1 < 100) (hc1 : c1 < 100) (hd1 : d1 < 1000)
    (ha2 : a2 < 100) (hb2 : b2 < 100) (hc2 : c2 < 100) (hd2 : d2 < 1000) :
    ∀ c ∈ mkTimecodeLine a1 b1 c1 d1 a2 b2 c2 d2,
      isDigitCh c = true ∨ c = ':' ∨ c = ',' ∨ c = ' ' ∨ c = '-' ∨ c = '>' := by
  intro c hc
  simp only [mkTimecodeLine, pad2, pad3, List.cons_append, List.nil_append,
    List.mem_cons, List.not_mem_nil, or_false] at hc
  rcases hc with rfl | rfl | rfl | rfl | rfl | rfl | rfl | rfl | rfl | rfl |
    rfl | rfl | rfl | rfl | rfl | rfl | rfl | rfl | rfl | rfl |
    rfl | rfl | rfl | rfl | rfl | rfl | rfl | rfl | rfl
  all_goals first | exact Or.inl (digitChar_isDigit (by omega)) | decide

theorem mkTimecodeLine_no_nlcr {a1 b1 c1 d1 a2 b2 c2 d2 : Nat}
    (ha1 : a1 < 100) (hb1 : b1 < 100) (hc1 : c1 < 100) (hd1 : d1 < 1000)
    (ha2 : a2 < 100) (hb2 : b2 < 100) (hc2 : c2 < 100) (hd2 : d2 < 1000) :
    ∀ c ∈ mkTimecodeLine a1 b1 c1 d1 a2 b2 c2 d2, c ≠ '\n' ∧ c ≠ '\r' := by
  intro c hc
  rcases mkTimecodeLine_chars ha1 hb1 hc1 hd1 ha2 hb2 hc2 hd2 c hc with
    h | rfl | rfl | rfl | rfl | rfl
  · exact isDigitCh_ne_nl_cr h
  all_goals exact ⟨by decide, by decide⟩

theorem mkTimecodeLine_head {a1 b1 c1 d1 a2 b2 c2 d2 : Nat} :
    (mkTimecodeLine a1 b1 c1 d1 a2 b2 c2 d2).head? = some (Nat.digitChar (a1 / 10)) := rfl

theorem mkTimecodeLine_last {a1 b1 c1 d1 a2 b2 c2 d2 : Nat} :
    (mkTimecodeLine a1 b1 c1 d1 a2 b2 c2 d2).getLast? = some (Nat.digitChar (d2 % 10)) := by
  simp only [mkTimecodeLine, pad2, pad3, List.cons_append, List.nil_append]
  rfl

/-- A string whose first and last characters are not whitespace is its own
    JavaScript trim. -/
theorem jsTrim_eq_self {s : List Char}
    (h1 : (s.head?.all (fun c => !isJsSpace c)) = true)
    (h2 : (s.getLast?.all (fun c => !isJsSpace c)) = true) :
    jsTrim s = s := by
  unfold jsTrim
  have hd : s.dropWhile isJsSpace = s := by
    cases s with
    | nil => rfl
    | cons c cs =>
      simp only [List.head?_cons, Option.all_some, Bool.not_eq_true'] at h1
      rw [List.dropWhile_cons, if_neg (by simp [h1])]
  rw [hd]
  have hd2 : s.reverse.dropWhile isJsSpace = s.reverse := by
    cases hr : s.reverse with
    | nil => rfl
    | cons c cs =>
      have hlast : s.getLast? = some c := by
        rw [← List.head?_reverse, hr]
        rfl
      rw [hlast] at h2
      simp only [Option.all_some, Bool.not_eq_true'] at h2
      rw [List.dropWhile_cons, if_neg (by simp [h2])]
  rw [hd2, List.reverse_reverse]

theorem jsTrim_mkTimecodeLine {a1 b1 c1 d1 a2 b2 c2 d2 : Nat} (ha1 : a1 < 100) :
    jsTrim (mkTimecodeLine a1 b1 c1 d1 a2 b2 c2 d2) =
      mkTimecodeLine a1 b1 c1 d1 a2 b2 c2 d2 := by
  apply jsTrim_eq_self
  · rw [mkTimecodeLine_head]
    simp [Option.all, digitChar_not_space (show a1 / 10 < 10 by omega)]
  · rw [mkTimecodeLine_last]
    simp [Option.all, digitChar_not_space (show d2 % 10 < 10 by omega)]

theorem splitLines_append_nl {a : List Char} (h : ∀ c ∈ a, c ≠ '\n') (b : List Char) :
    splitLines (a ++ '\n' :: b) = a :: splitLines b := by
  induction a with
  | nil => simp [splitLines]
  | cons c cs ih =>
    simp only [List.cons_append, splitLines, List.append_eq]
    rw [if_neg (h c (List.mem_cons_self c cs))]
    rw [ih (fun d hd => h d (List.mem_cons_of_mem c hd))]

/-- No character of `s` directly followed by a newline is itself a newline,
    so `split(/\n\n+/)` keeps `s` in one block. -/
def noDoubleNl : List Char → Bool
  | c :: d :: cs => if c = '\n' ∧ d = '\n' then false else noDoubleNl (d :: cs)
  | _ => true

theorem noDoubleNl_cons {c : Char} {s : List Char}
    (h1 : ¬(c = '\n' ∧ s.head? = some '\n')) (h2 : noDoubleNl s = true) :
    noDoubleNl (c :: s) = true := by
  cases s with
  | nil => rfl
  | cons d ds =>
    simp only [noDoubleNl]
    rw [if_neg (fun hcd => h1 ⟨hcd.1, by simp [hcd.2]⟩)]
    exact h2

theorem noDoubleNl_cons_elim {c : Char} {s : List Char} (h : noDoubleNl (c :: s) = true) :
    ¬(c = '\n' ∧ s.head? = some '\n') ∧ noDoubleNl s = true := by
  cases s with
  | nil => exact ⟨fun hcd => by simp at hcd, rfl⟩
  | cons d ds =>
    simp only [noDoubleNl] at h
    by_cases hcd : c = '\n' ∧ d = '\n'
    · rw [if_pos hcd] at h
      exact absurd h (by decide)
    · rw [if_neg hcd] at h
      refine ⟨fun hx => hcd ⟨hx.1, ?_⟩, h⟩
      have hx2 := hx.2
      rw [List.head?_cons] at hx2
      exact Option.some.inj hx2

theorem noDoubleNl_append {a : List Char} (ha : ∀ c ∈ a, c ≠ '\n') {b : List Char}
    (hb : noDoubleNl b = true) : noDoubleNl (a ++ b) = true := by
  induction a with
  | nil => simpa using hb
  | cons c cs ih =>
    rw [List.cons_append]
    exact noDoubleNl_cons (fun hcd => ha c (List.mem_cons_self c cs) hcd.1)
      (ih (fun d hd => ha d (List.mem_cons_of_mem c hd)))

theorem splitBlocksAux_noDouble (s : List Char) (h : noDoubleNl s = true) :
    ∀ fuel cur, s.length ≤ fuel → splitBlocksAux fuel cur s = [cur.reverse ++ s] := by
  induction s with
  | nil =>
    intro fuel cur _
    cases fuel with
    | zero => rfl
    | succ n => simp [splitBlocksAux]
  | cons c cs ih =>
    intro fuel cur hf
    obtain ⟨h1, h2⟩ := noDoubleNl_cons_elim h
    cases fuel with
    | zero => simp at hf
    | succ n =>
      simp only [splitBlocksAux]
      rw [if_neg h1]
      rw [ih h2 n (c :: cur) (by simp at hf; omega)]
      simp

theorem splitBlocks_noDouble {s : List Char} (h : noDoubleNl s = true) :
    splitBlocks s = [s] := by
  unfold splitBlocks
  rw [splitBlocksAux_noDouble s h s.length [] le_rfl]
  rfl

/-- First pass of line-ending normalisation fixes strings without `\r`. -/
theorem normalizeCrLf_id {s : List Char} (h : ∀ c ∈ s, c ≠ '\r') : normalizeCrLf s = s := by
  induction s with
  | nil => rfl
  | cons c cs ih =>
    cases cs with
    | nil => rfl
    | cons d ds =>
      simp only [normalizeCrLf]
      rw [if_neg (fun hc => h c (List.mem_cons_self c (d :: ds)) hc.1)]
      rw [ih (fun e he => h e (List.mem_cons_of_mem c he))]

/-- Newline normalisation fixes strings without `\r`. -/
theorem normalizeNewlines_id {s : List Char} (h : ∀ c ∈ s, c ≠ '\r') :
    normalizeNewlines s = s := by
  unfold normalizeNewlines
  rw [normalizeCrLf_id h]
  induction s with
  | nil => rfl
  | cons c cs ih =>
    simp only [List.map_cons]
    rw [if_neg (h c (List.mem_cons_self c cs))]
    rw [ih (fun d hd => h d (List.mem_cons_of_mem c hd))]

theorem blockLines_mkSingleCueSrc {a1 b1 c1 d1 a2 b2 c2 d2 : Nat}
    (ha1 : a1 < 100) (hb1 : b1 < 100) (hc1 : c1 < 100) (hd1 : d1 < 1000)
    (ha2 : a2 < 100) (hb2 : b2 < 100) (hc2 : c2 < 100) (hd2 : d2 < 1000) :
    blockLines (mkSingleCueSrc a1 b1 c1 d1 a2 b2 c2 d2) =
      [['1'], mkTimecodeLine a1 b1 c1 d1 a2 b2 c2 d2, "Hello".data] := by
  have hline := mkTimecodeLine_no_nlcr ha1 hb1 hc1 hd1 ha2 hb2 hc2 hd2
  have hsplit : splitLines (mkSingleCueSrc a1 b1 c1 d1 a2 b2 c2 d2) =
      [['1'], mkTimecodeLine a1 b1 c1 d1 a2 b2 c2 d2, "Hello".data] := by
    unfold mkSingleCueSrc
    rw [show ('1' :: '\n' :: (mkTimecodeLine a1 b1 c1 d1 a2 b2 c2 d2 ++ '\n' :: "Hello".data)) =
        ['1'] ++ '\n' :: (mkTimecodeLine a1 b1 c1 d1 a2 b2 c2 d2 ++ '\n' :: "Hello".data) from
      rfl]
    rw [splitLines_append_nl (by intro c hc; simp at hc; subst hc; decide)]
    rw [splitLines_append_nl (fun c hc => (hline c hc).1)]
    rfl
  unfold blockLines
  rw [hsplit]
  simp only [List.filter_cons, List.filter_nil]
  rw [if_pos (by decide)]
  rw [if_pos (by
    rw [jsTrim_mkTimecodeLine ha1]
    simp [mkTimecodeLine, pad2])]
  rw [if_pos (by decide)]

theorem parseBlockResult_mkSingleCueSrc {a1 b1 c1 d1 a2 b2 c2 d2 : Nat}
    (ha1 : a1 < 100) (hb1 : b1 < 100) (hc1 : c1 < 100) (hd1 : d1 < 1000)
    (ha2 : a2 < 100) (hb2 : b2 < 100) (hc2 : c2 < 100) (hd2 : d2 < 1000)
    (hlt : parseTimecode a1 b1 c1 d1 < parseTimecode a2 b2 c2 d2) :
    parseBlockResult (mkSingleCueSrc a1 b1 c1 d1 a2 b2 c2 d2) =
      (some ⟨1, parseTimecode a1 b1 c1 d1, parseTimecode a2 b2 c2 d2, "Hello".data⟩, []) := by
  have hbl := blockLines_mkSingleCueSrc ha1 hb1 hc1 hd1 ha2 hb2 hc2 hd2
  simp only [parseBlockResult, indexLineOf, timecodeLineOf]
  rw [hbl]
  rw [if_neg (by simp)]
  simp only [List.getD_cons_zero, List.getD_cons_succ]
  rw [(by decide : jsParseInt (jsTrim (['1'] : List Char)) = some (1 : Int))]
  rw [jsTrim_mkTimecodeLine ha1, matchTimecode_mk ha1 hb1 hc1 hd1 ha2 hb2 hc2 hd2]
  dsimp only
  rw [if_neg (not_le.mpr hlt)]
  rw [show List.drop 2 [['1'], mkTimecodeLine a1 b1 c1 d1 a2 b2 c2 d2,
      ("Hello".data : List Char)] = [("Hello".data : List Char)] from rfl]
  rw [show List.intercalate ['\n'] [("Hello".data : List Char)] = "Hello".data from by decide]
  rw [show stripTrailNl (stripLeadNl ("Hello".data : List Char)) = "Hello".data from by decide]
  rw [show decodeHtmlEntities (stripHtmlTags ("Hello".data : List Char)) = "Hello".data from by
    decide]
  rw [if_neg (by decide : ¬("Hello".data : List Char) = [])]

/-- parseSrt on the constructed one-cue source recovers index 1, the timing
    formula of both stamps and the text. -/
theorem parseSrt_mkSingleCueSrc {a1 b1 c1 d1 a2 b2 c2 d2 : Nat}
    (ha1 : a1 < 100) (hb1 : b1 < 100) (hc1 : c1 < 100) (hd1 : d1 < 1000)
    (ha2 : a2 < 100) (hb2 : b2 < 100) (hc2 : c2 < 100) (hd2 : d2 < 1000)
    (hlt : parseTimecode a1 b1 c1 d1 < parseTimecode a2 b2 c2 d2) :
    parseSrt (mkSingleCueSrc a1 b1 c1 d1 a2 b2 c2 d2) =
      { cues := [⟨1, parseTimecode a1 b1 c1 d1, parseTimecode a2 b2 c2 d2, "Hello".data⟩]
        errors := [] } := by
  have hline := mkTimecodeLine_no_nlcr ha1 hb1 hc1 hd1 ha2 hb2 hc2 hd2
  have hnr : ∀ c ∈ mkSingleCueSrc a1 b1 c1 d1 a2 b2 c2 d2, c ≠ '\r' := by
    intro c hc
    unfold mkSingleCueSrc at hc
    simp only [List.mem_cons, List.mem_append] at hc
    rcases hc with rfl | rfl | hc | hc
    · decide
    · decide
    · exact (hline c hc).2
    · rcases hc with rfl | rfl | rfl | rfl | rfl | rfl | hc
      · decide
      · decide
      · decide
      · decide
      · decide
      · decide
      · exact absurd hc (List.not_mem_nil c)
  have hnn : noDoubleNl (mkSingleCueSrc a1 b1 c1 d1 a2 b2 c2 d2) = true := by
    unfold mkSingleCueSrc
    apply noDoubleNl_cons (by intro hx; exact absurd hx.1 (by decide))
    apply noDoubleNl_cons
    · intro hx
      have hh : (mkTimecodeLine a1 b1 c1 d1 a2 b2 c2 d2 ++ '\n' :: "Hello".data).head? =
          some (Nat.digitChar (a1 / 10)) := rfl
      rw [hh] at hx
      have hx2 := Option.some.inj hx.2
      exact (isDigitCh_ne_nl_cr (digitChar_isDigit (show a1 / 10 < 10 by omega))).1 hx2
    · apply noDoubleNl_append (fun c hc => (hline c hc).1)
      decide
  have hlast : (mkSingleCueSrc a1 b1 c1 d1 a2 b2 c2 d2).getLast? = some 'o' := by
    unfold mkSingleCueSrc
    rw [show ('1' :: '\n' :: (mkTimecodeLine a1 b1 c1 d1 a2 b2 c2 d2 ++ '\n' :: "Hello".data)) =
        ('1' :: '\n' :: mkTimecodeLine a1 b1 c1 d1 a2 b2 c2 d2) ++ '\n' :: "Hello".data from by
      simp]
    rw [List.getLast?_append]
    rfl
  have htrim : jsTrim (mkSingleCueSrc a1 b1 c1 d1 a2 b2 c2 d2) =
      mkSingleCueSrc a1 b1 c1 d1 a2 b2 c2 d2 := by
    apply jsTrim_eq_self
    · rw [show (mkSingleCueSrc a1 b1 c1 d1 a2 b2 c2 d2).head? = some '1' from rfl]
      decide
    · rw [hlast]
      decide
  simp only [parseSrt]
  rw [normalizeNewlines_id hnr, splitBlocks_noDouble hnn]
  simp only [List.filter_cons, List.filter_nil]
  rw [if_pos (by rw [htrim]; simp [mkSingleCueSrc])]
  simp only [List.map_cons, List.map_nil]
  rw [parseBlockResult_mkSingleCueSrc ha1 hb1 hc1 hd1 ha2 hb2 hc2 hd2 hlt]
  rfl

/-- C3: scenario A holds exactly; in general every well-formed block
    (enough lines, parsable index, matching timing line, positive duration)
    produces a cue whose `startMs` and `endMs` are computed from the two
    captured timecodes as `H*3600000 + M*60000 + S*1000 + ms`; and for all
    in-range field values a constructed one-cue source realises the formula
    end to end through `parseSrt`. -/
theorem parseSrt_timecode_formula :
    (∀ (block : List Char) (idx : Int) (tc : Timecode),
      2 ≤ (blockLines block).length →
      jsParseInt (indexLineOf block) = some idx →
      matchTimecode (timecodeLineOf block) = some tc →
      parseTimecode tc.h1 tc.m1 tc.s1 tc.ms1 < parseTimecode tc.h2 tc.m2 tc.s2 tc.ms2 →
      ∃ c : SrtCue, (parseBlockResult block).1 = some c ∧ c.index = idx ∧
        c.startMs = (tc.h1 : Int) * 3600000 + (tc.m1 : Int) * 60000 +
          (tc.s1 : Int) * 1000 + (tc.ms1 : Int) ∧
        c.endMs = (tc.h2 : Int) * 3600000 + (tc.m2 : Int) * 60000 +
          (tc.s2 : Int) * 1000 + (tc.ms2 : Int)) ∧
    (∀ a1 b1 c1 d1 a2 b2 c2 d2 : Nat,
      a1 < 100 → b1 < 100 → c1 < 100 → d1 < 1000 →
      a2 < 100 → b2 < 100 → c2 < 100 → d2 < 1000 →
      (a1 : Int) * 3600000 + (b1 : Int) * 60000 + (c1 : Int) * 1000 + (d1 : Int) <
        (a2 : Int) * 3600000 + (b2 : Int) * 60000 + (c2 : Int) * 1000 + (d2 : Int) →
      parseSrt (mkSingleCueSrc a1 b1 c1 d1 a2 b2 c2 d2) =
        { cues := [⟨1,
            (a1 : Int) * 3600000 + (b1 : Int) * 60000 + (c1 : Int) * 1000 + (d1 : Int),
            (a2 : Int) * 3600000 + (b2 : Int) * 60000 + (c2 : Int) * 1000 + (d2 : Int),
            "Hello".data⟩]
          errors := [] }) ∧
    parseSrt "1\n00:00:01,000 --> 00:00:03,000\nHello".data =
      { cues := [{ index := 1, startMs := 1000, endMs := 3000, text := "Hello".data }]
        errors := [] } := by
  refine ⟨?_, ?_, by decide⟩
  · intro block idx tc hlen hidx htc hlt
    simp only [parseBlockResult]
    rw [if_neg (by omega), hidx]
    dsimp only
    rw [htc]
    dsimp only
    rw [if_neg (by unfold parseTimecode at hlt ⊢; omega)]
    dsimp only
    exact ⟨_, rfl, rfl, by unfold parseTimecode; rfl, by unfold parseTimecode; rfl⟩
  · intro a1 b1 c1 d1 a2 b2 c2 d2 ha1 hb1 hc1 hd1 ha2 hb2 hc2 hd2 hlt
    have h := parseSrt_mkSingleCueSrc ha1 hb1 hc1 hd1 ha2 hb2 hc2 hd2
      (by unfold parseTimecode; exact hlt)
    unfold parseTimecode at h
    exact h

/-- Witness for C3 at the scenario-A block and at one constructed source. -/
theorem parseSrt_timecode_formula_witness :
    (∃ c : SrtCue,
      (parseBlockResult "1\n00:00:01,000 --> 00:00:03,000\nHello".data).1 = some c ∧
      c.index = 1 ∧ c.startMs = 1000 ∧ c.endMs = 3000) ∧
    parseSrt (mkSingleCueSrc 0 0 2 500 0 0 4 250) =
      { cues := [{ index := 1, startMs := 2500, endMs := 4250, text := "Hello".data }]
        errors := [] } := by
  constructor
  · exact parseSrt_timecode_formula.1 "1\n00:00:01,000 --> 00:00:03,000\nHello".data 1
      ⟨0, 0, 1, 0, 0, 0, 3, 0⟩ (by decide) (by decide) (by decide) (by decide)
  · have h := parseSrt_timecode_formula.2.1 0 0 2 500 0 0 4 250 (by decide) (by decide)
      (by decide) (by decide) (by decide) (by decide) (by decide) (by decide) (by decide)
    exact h

/-! ## C7: idempotence on markup-free plain text -/

/-- Characters free of markup, entity, quote and newline syntax. -/
def plainTextChar (c : Char) : Bool :=
  !(c = '&') && !(c = '<') && !(c = '>') && !(c = quoteChar) && !(c = aposChar) && !(c = '\n')

theorem plainTextChar_iff {c : Char} : plainTextChar c = true ↔
    c ≠ '&' ∧ c ≠ '<' ∧ c ≠ '>' ∧ c ≠ quoteChar ∧ c ≠ aposChar ∧ c ≠ '\n' := by
  simp [plainTextChar, and_assoc]

theorem toNat_ofNat_small {m : Nat} (h : m < 55296) : (Char.ofNat m).toNat = m := by
  have hv : m.isValidChar := Or.inl h
  unfold Char.ofNat
  rw [dif_pos hv]
  unfold Char.ofNatAux Char.toNat
  simp [UInt32.toNat]

theorem toLowerAscii_eq_symbol {p c : Char} (hp : ¬ (97 ≤ p.toNat ∧ p.toNat ≤ 122))
    (h : toLowerAscii c = p) : c = p := by
  unfold toLowerAscii at h
  split at h
  · rename_i hc
    exfalso
    apply hp
    rw [← h, toNat_ofNat_small (by omega)]
    omega
  · exact h

theorem ciEq_iff_of_symbol {p : Char} (hlow : toLowerAscii p = p)
    (hp : ¬ (97 ≤ p.toNat ∧ p.toNat ≤ 122)) (c : Char) : ciEq p c = true ↔ c = p := by
  unfold ciEq
  rw [hlow, decide_eq_true_eq]
  constructor
  · intro h
    exact toLowerAscii_eq_symbol hp h.symm
  · intro h
    subst h
    exact hlow.symm

theorem matchCi_cons_eq_none {p c : Char} {ps cs : List Char}
    (hlow : toLowerAscii p = p) (hp : ¬ (97 ≤ p.toNat ∧ p.toNat ≤ 122)) (h : c ≠ p) :
    matchCi (p :: ps) (c :: cs) = none := by
  simp only [matchCi]
  rw [if_neg]
  intro hci
  exact h ((ciEq_iff_of_symbol hlow hp c).mp hci)

theorem splitAtCi_eq_none {p : Char} {ps s : List Char}
    (hlow : toLowerAscii p = p) (hp : ¬ (97 ≤ p.toNat ∧ p.toNat ≤ 122))
    (h : ∀ c ∈ s, c ≠ p) : splitAtCi (p :: ps) s = none := by
  induction s with
  | nil => rfl
  | cons c cs ih =>
    simp only [splitAtCi]
    rw [matchCi_cons_eq_none hlow hp (h c (by simp))]
    rw [ih (fun x hx => h x (by simp [hx]))]
    rfl

theorem splitAtLit_eq_none {p : Char} {ps s : List Char}
    (h : ∀ c ∈ s, c ≠ p) : splitAtLit (p :: ps) s = none := by
  induction s with
  | nil => rfl
  | cons c cs ih =>
    simp only [splitAtLit]
    have hm : matchLit (p :: ps) (c :: cs) = none := by
      simp only [matchLit]
      rw [if_neg]
      exact fun hpc => h c (by simp) hpc.symm
    rw [hm, ih (fun x hx => h x (by simp [hx]))]
    rfl

theorem hadHtmlTags_eq_false {s : List Char} (h : ∀ c ∈ s, c ≠ '<') :
    hadHtmlTags s = false := by
  unfold hadHtmlTags
  have hd : s.dropWhile (fun c => c ≠ '<') = [] := by
    rw [List.dropWhile_eq_nil_iff]
    intro x hx
    simp [h x hx]
  rw [hd]

theorem hadHtmlComments_eq_false {s : List Char} (h : ∀ c ∈ s, c ≠ '<') :
    hadHtmlComments s = false := by
  unfold hadHtmlComments
  rw [show ("<!--".data) = '<' :: "!--".data from rfl]
  rw [splitAtLit_eq_none h]

theorem hadHtmlEntities_eq_false {s : List Char} (h : ∀ c ∈ s, c ≠ '&') :
    hadHtmlEntities s = false := by
  induction s with
  | nil => rfl
  | cons c cs ih =>
    simp only [hadHtmlEntities]
    rw [ih (fun x hx => h x (by simp [hx]))]
    simp [h c (by simp)]

/-- The generic scan is the identity when the matcher never fires on any
    suffix of the input. -/
theorem scanG_id (f : List Char → Option (List Char × List Char)) (fuel : Nat)
    (s : List Char) (h : ∀ t, t <:+ s → f t = none) : scanG f fuel s = s := by
  induction fuel generalizing s with
  | zero => rfl
  | succ n ih =>
    cases s with
    | nil => rfl
    | cons c cs =>
      simp only [scanG]
      rw [h (c :: cs) (List.suffix_refl _)]
      rw [ih cs (fun t ht => h t (ht.trans (List.suffix_cons c cs)))]

theorem ciLitMatcher_none {p : Char} {ps repl t : List Char}
    (hlow : toLowerAscii p = p) (hp : ¬ (97 ≤ p.toNat ∧ p.toNat ≤ 122))
    (h : ∀ c ∈ t, c ≠ p) : ciLitMatcher (p :: ps) repl t = none := by
  unfold ciLitMatcher
  cases t with
  | nil => rfl
  | cons c cs =>
    rw [matchCi_cons_eq_none hlow hp (h c (by simp))]
    rfl

theorem replaceCi_id {p : Char} {ps repl s : List Char}
    (hlow : toLowerAscii p = p) (hp : ¬ (97 ≤ p.toNat ∧ p.toNat ≤ 122))
    (h : ∀ c ∈ s, c ≠ p) : replaceCi (p :: ps) repl s = s :=
  scanG_id _ _ _ (fun t ht => ciLitMatcher_none hlow hp (fun c hc => h c (ht.subset hc)))

theorem decEntMatcher_none {t : List Char} (h : ∀ c ∈ t, c ≠ '&') :
    decEntMatcher t = none := by
  cases t with
  | nil => rfl
  | cons c cs =>
    cases cs with
    | nil => rfl
    | cons d ds =>
      simp only [decEntMatcher]
      rw [if_neg]
      rintro ⟨hc, _⟩
      exact h c (by simp) hc

theorem hexEntMatcher_none {t : List Char} (h : ∀ c ∈ t, c ≠ '&') :
    hexEntMatcher t = none := by
  cases t with
  | nil => rfl
  | cons c cs =>
    cases cs with
    | nil => rfl
    | cons d ds =>
      simp only [hexEntMatcher]
      rw [if_neg]
      rintro ⟨hc, _⟩
      exact h c (by simp) hc

theorem decodeHtmlEntities_id {s : List Char} (h : ∀ c ∈ s, c ≠ '&') :
    decodeHtmlEntities s = s := by
  have hfold : ∀ (l : List (List Char × List Char)) (z : List Char),
      (∀ pr ∈ l, pr.1.head? = some '&') → (∀ c ∈ z, c ≠ '&') →
      l.foldl (fun acc pr => replaceCi pr.1 pr.2 acc) z = z := by
    intro l
    induction l with
    | nil => intro z _ _; rfl
    | cons pr rest ih =>
      intro z hl hz
      simp only [List.foldl_cons]
      have hrw : replaceCi pr.1 pr.2 z = z := by
        cases hq : pr.1 with
        | nil =>
          have := hl pr (by simp)
          rw [hq] at this
          simp at this
        | cons q qs =>
          have hqamp : q = '&' := by
            have := hl pr (by simp)
            rw [hq] at this
            simpa using this
          subst hqamp
          exact replaceCi_id (by decide) (by decide) hz
      rw [hrw]
      exact ih z (fun x hx => hl x (by simp [hx])) hz
  simp only [decodeHtmlEntities, decodeDecAux, decodeHexAux]
  rw [hfold htmlEntities s (by decide) h]
  rw [scanG_id decEntMatcher _ _ (fun t ht => decEntMatcher_none (fun c hc => h c (ht.subset hc)))]
  rw [scanG_id hexEntMatcher _ _ (fun t ht => hexEntMatcher_none (fun c hc => h c (ht.subset hc)))]

theorem tryTagAt_none {names : List (List Char)} {t : List Char}
    (h : ∀ c ∈ t, c ≠ '<') : tryTagAt names t = none := by
  cases t with
  | nil => rfl
  | cons c cs =>
    simp only [tryTagAt]
    rw [if_neg (h c (by simp))]

theorem namedTagMatcher_none {names : List (List Char)} {repl t : List Char}
    (h : ∀ c ∈ t, c ≠ '<') : namedTagMatcher names repl t = none := by
  unfold namedTagMatcher
  rw [tryTagAt_none h]
  rfl

theorem replaceNamedTags_id {names : List (List Char)} {repl s : List Char}
    (h : ∀ c ∈ s, c ≠ '<') : replaceNamedTags names repl s = s :=
  scanG_id _ _ _ (fun t ht => namedTagMatcher_none (fun c hc => h c (ht.subset hc)))

theorem brPunctMatcher_none {t : List Char} (h : ∀ c ∈ t, c ≠ '<') :
    brPunctMatcher t = none := by
  cases t with
  | nil => rfl
  | cons c cs =>
    simp only [brPunctMatcher]
    rw [tryTagAt_none (fun x hx => h x (by simp [hx]))]
    split <;> rfl

theorem brAfterPunct_id {s : List Char} (h : ∀ c ∈ s, c ≠ '<') : brAfterPunct s = s :=
  scanG_id _ _ _ (fun t ht => brPunctMatcher_none (fun c hc => h c (ht.subset hc)))

theorem anyTagMatcher_none {t : List Char} (h : ∀ c ∈ t, c ≠ '<') :
    anyTagMatcher t = none := by
  cases t with
  | nil => rfl
  | cons c cs =>
    simp only [anyTagMatcher]
    rw [if_neg (h c (by simp))]

theorem replaceAllTags_id {s : List Char} (h : ∀ c ∈ s, c ≠ '<') : replaceAllTags s = s :=
  scanG_id _ _ _ (fun t ht => anyTagMatcher_none (fun c hc => h c (ht.subset hc)))

theorem removeTrailingLt_id {s : List Char} (h : ∀ c ∈ s, c ≠ '<') :
    removeTrailingLt s = s := by
  unfold removeTrailingLt
  rw [show ("<".data) = '<' :: ([] : List Char) from rfl]
  rw [splitAtLit_eq_none (fun c hc => h c (List.mem_reverse.mp hc))]

theorem removeLazyBlocksCi_id {opn cls : List Char} {keep : Bool} {s : List Char}
    (h : splitAtCi opn s = none) : removeLazyBlocksCi opn cls keep s = s := by
  unfold removeLazyBlocksCi
  cases hn : s.length with
  | zero => rfl
  | succ n =>
    simp only [removeLazyBlocksCiAux]
    rw [h]

theorem matchCi_suffix {pat s r : List Char} (h : matchCi pat s = some r) : r <:+ s := by
  induction pat generalizing s with
  | nil =>
    simp only [matchCi, Option.some.injEq] at h
    subst h
    exact List.suffix_refl _
  | cons p ps ih =>
    cases s with
    | nil => simp [matchCi] at h
    | cons c cs =>
      simp only [matchCi] at h
      split at h
      · exact (ih h).trans (List.suffix_cons c cs)
      · exact absurd h (by simp)

theorem tryStyleAttr_none {t : List Char}
    (h : ∀ c ∈ t, c ≠ quoteChar ∧ c ≠ aposChar) : tryStyleAttr t = none := by
  cases hm : matchCi "style".data t with
  | none =>
    unfold tryStyleAttr
    rw [hm]
  | some r1 =>
    have hr1 : r1 <:+ t := matchCi_suffix hm
    unfold tryStyleAttr
    rw [hm]
    dsimp only
    cases hd : r1.dropWhile isJsSpace with
    | nil => rfl
    | cons e r3 =>
      dsimp only
      by_cases he : e = '='
      · rw [if_pos he]
        cases hd2 : r3.dropWhile isJsSpace with
        | nil => rfl
        | cons q r5 =>
          dsimp only
          have hq : q ∈ t := by
            have h1 : q :: r5 <:+ r3 := hd2 ▸ List.dropWhile_suffix _
            have h3 : e :: r3 <:+ r1 := hd ▸ List.dropWhile_suffix _
            have h2 : r3 <:+ t := ((List.suffix_cons e r3).trans h3).trans hr1
            exact h2.subset (h1.subset (by simp))
          rw [if_neg]
          rintro (hq1 | hq2)
          · exact (h q hq).1 hq1
          · exact (h q hq).2 hq2
      · rw [if_neg he]

theorem removeStyleAttrsAux_id (fuel : Nat) (prevW : Bool) (s : List Char)
    (h : ∀ c ∈ s, c ≠ quoteChar ∧ c ≠ aposChar) :
    removeStyleAttrsAux fuel prevW s = s := by
  induction fuel generalizing prevW s with
  | zero => rfl
  | succ n ih =>
    cases s with
    | nil => rfl
    | cons c cs =>
      simp only [removeStyleAttrsAux]
      have hnone : (if prevW then none else tryStyleAttr (c :: cs)) = none := by
        cases prevW
        · exact tryStyleAttr_none h
        · rfl
      rw [hnone]
      rw [ih (isWordChar c) cs (fun x hx => h x (by simp [hx]))]

theorem stripCommentsAux_id (fuel : Nat) (acc s : List Char)
    (h : ∀ c ∈ s, c ≠ '<' ∧ c ≠ '>') :
    stripCommentsAux fuel acc 0 s = acc ++ s := by
  induction fuel generalizing acc s with
  | zero => rfl
  | succ n ih =>
    cases s with
    | nil => simp [stripCommentsAux]
    | cons c cs =>
      simp only [stripCommentsAux]
      have h1 : ¬ (c = '<' ∧ cs.take 3 = ['!', '-', '-']) := by
        rintro ⟨hc, _⟩
        exact (h c (by simp)).1 hc
      have h2 : ¬ (c = '-' ∧ cs.take 2 = ['-', '>']) := by
        rintro ⟨_, ht⟩
        have hm : '>' ∈ cs.take 2 := by rw [ht]; simp
        exact (h '>' (by simp [List.mem_of_mem_take hm])).2 rfl
      rw [if_neg h1, if_neg h2]
      rw [if_pos trivial]
      rw [ih (acc ++ [c]) cs (fun x hx => h x (by simp [hx]))]
      simp

theorem stripComments_id {s : List Char} (h : ∀ c ∈ s, c ≠ '<' ∧ c ≠ '>') :
    stripComments s = s := by
  unfold stripComments
  rw [stripCommentsAux_id _ _ _ h]
  rfl

theorem mapCtrlWs_id {s : List Char} (h : ∀ c ∈ s, isCtrlWs c = false) :
    mapCtrlWs s = s := by
  unfold mapCtrlWs
  induction s with
  | nil => rfl
  | cons c cs ih =>
    simp only [List.map_cons]
    rw [if_neg (by simp [h c (by simp)]), ih (fun x hx => h x (by simp [hx]))]

theorem mem_mapCtrlWs {s : List Char} {c : Char} (h : c ∈ mapCtrlWs s) :
    c = ' ' ∨ (c ∈ s ∧ isCtrlWs c = false) := by
  unfold mapCtrlWs at h
  rw [List.mem_map] at h
  obtain ⟨b, hb, hbc⟩ := h
  by_cases hctrl : isCtrlWs b = true
  · rw [if_pos hctrl] at hbc
    exact Or.inl hbc.symm
  · rw [if_neg hctrl] at hbc
    refine Or.inr ?_
    rw [← hbc]
    exact ⟨hb, by simpa using hctrl⟩

theorem collapseNewlinesAux_id (fuel : Nat) (s : List Char) (h : ∀ c ∈ s, c ≠ '\n') :
    collapseNewlinesAux fuel s = s := by
  induction fuel generalizing s with
  | zero => rfl
  | succ n ih =>
    cases s with
    | nil => rfl
    | cons c cs =>
      simp only [collapseNewlinesAux]
      rw [if_neg (h c (by simp))]
      rw [ih cs (fun x hx => h x (by simp [hx]))]

theorem stripSpaceBeforeNlAux_id (fuel : Nat) (s : List Char) (h : ∀ c ∈ s, c ≠ '\n') :
    stripSpaceBeforeNlAux fuel s = s := by
  induction fuel generalizing s with
  | zero => rfl
  | succ n ih =>
    cases s with
    | nil => rfl
    | cons c cs =>
      simp only [stripSpaceBeforeNlAux]
      by_cases hc : c = ' '
      · rw [if_pos hc]
        have hrest : ((cs.dropWhile (fun d => d = ' ')).head? = some '\n') = False := by
          simp only [eq_iff_iff, iff_false]
          intro he
          have hmem : '\n' ∈ cs.dropWhile (fun d => d = ' ') := by
            cases hr : cs.dropWhile (fun d => d = ' ') with
            | nil => rw [hr] at he; simp at he
            | cons x xs =>
              rw [hr] at he
              simp only [List.head?_cons, Option.some.injEq] at he
              simp [he]
          exact h '\n' (by simp [(List.dropWhile_suffix _).subset hmem]) rfl
        rw [if_neg (by rw [hrest]; exact id)]
        rw [ih _ (fun x hx => h x (by simp [(List.dropWhile_suffix _).subset hx]))]
        rw [hc, List.cons_append, List.takeWhile_append_dropWhile]
      · rw [if_neg hc, ih cs (fun x hx => h x (by simp [hx]))]

theorem stripSpaceAfterNlAux_id (fuel : Nat) (s : List Char) (h : ∀ c ∈ s, c ≠ '\n') :
    stripSpaceAfterNlAux fuel s = s := by
  induction fuel generalizing s with
  | zero => rfl
  | succ n ih =>
    cases s with
    | nil => rfl
    | cons c cs =>
      simp only [stripSpaceAfterNlAux]
      rw [if_neg (h c (by simp))]
      rw [ih cs (fun x hx => h x (by simp [hx]))]

theorem stripLeadNl_id {s : List Char} (h : ∀ c ∈ s, c ≠ '\n') : stripLeadNl s = s := by
  unfold stripLeadNl
  cases s with
  | nil => rfl
  | cons c cs => rw [List.dropWhile_cons, if_neg (by simp [h c (by simp)])]

theorem stripTrailNl_id {s : List Char} (h : ∀ c ∈ s, c ≠ '\n') : stripTrailNl s = s := by
  unfold stripTrailNl
  cases hr : s.reverse with
  | nil =>
    rw [List.reverse_eq_nil_iff] at hr
    subst hr
    rfl
  | cons c cs =>
    have hc : c ∈ s := by
      rw [← List.mem_reverse, hr]
      simp
    rw [List.dropWhile_cons, if_neg (by simp [h c hc])]
    rw [← hr, List.reverse_reverse]

/-- Does the string contain a run of three consecutive spaces? -/
def hasRun3 : List Char → Bool
  | [] => false
  | c :: cs => (c = ' ' && cs.take 2 = [' ', ' ']) || hasRun3 cs

theorem hasRun3_tail {c : Char} {cs : List Char} (h : hasRun3 (c :: cs) = false) :
    hasRun3 cs = false := by
  simp only [hasRun3, Bool.or_eq_false_iff] at h
  exact h.2

theorem hasRun3_suffix {t s : List Char} (ht : t <:+ s) (h : hasRun3 s = false) :
    hasRun3 t = false := by
  obtain ⟨pre, rfl⟩ := ht
  induction pre with
  | nil => simpa using h
  | cons p ps ih => exact ih (hasRun3_tail (by simpa using h))

theorem takeWhile_spaces_replicate (cs : List Char) :
    cs.takeWhile (fun d => d = ' ') =
      List.replicate (cs.takeWhile (fun d => d = ' ')).length ' ' := by
  induction cs with
  | nil => rfl
  | cons c cs ih =>
    rw [List.takeWhile_cons]
    by_cases hc : c = ' '
    · rw [if_pos (by simp [hc])]
      simp only [List.length_cons, List.replicate_succ]
      rw [hc, ← ih]
    · rw [if_neg (by simp [hc])]
      rfl

theorem head?_of_take2 {w : List Char} (h : w.take 2 = [' ', ' ']) :
    w.head? = some ' ' := by
  cases w with
  | nil => simp at h
  | cons a as =>
    simp only [List.take_succ_cons, List.cons.injEq] at h
    simp [h.1]

theorem head?_of_take1 {w : List Char} (h : w.take 1 = [' ']) : w.head? = some ' ' := by
  cases w with
  | nil => simp at h
  | cons a as =>
    simp only [List.take_succ_cons, List.take_zero, List.cons.injEq] at h
    simp [h.1]

theorem hasRun3_spaces_append {w : List Char} {k : Nat} (hk : k ≤ 2)
    (hw : hasRun3 w = false) (hhead : w.head? ≠ some ' ') :
    hasRun3 (List.replicate k ' ' ++ w) = false := by
  have h2 : (w.take 2 = [' ', ' ']) = False := by
    simp only [eq_iff_iff, iff_false]
    intro ht
    exact hhead (head?_of_take2 ht)
  have h1 : ((' ' :: w).take 2 = [' ', ' ']) = False := by
    simp only [eq_iff_iff, iff_false]
    intro ht
    simp only [List.take_succ_cons, List.cons.injEq, true_and] at ht
    exact hhead (head?_of_take1 ht)
  have h3 : ¬ (w.take 1 = [' ']) := fun ht => hhead (head?_of_take1 ht)
  interval_cases k
  · simpa using hw
  · simp [List.replicate_succ, hasRun3, hw, h2]
  · simp [List.replicate_succ, hasRun3, hw, h1, h2, h3]

theorem collapseSpacesAux_head_not_space {fuel : Nat} {s : List Char}
    (h : s.head? ≠ some ' ') : (collapseSpacesAux fuel s).head? ≠ some ' ' := by
  cases fuel with
  | zero => exact h
  | succ n =>
    cases s with
    | nil => simp [collapseSpacesAux]
    | cons c cs =>
      have hc : ¬ (c = ' ') := fun e => h (by simp [e])
      simp only [collapseSpacesAux]
      rw [if_neg hc]
      simpa using hc

theorem hasRun3_collapseSpacesAux (fuel : Nat) (s : List Char) (hf : s.length ≤ fuel) :
    hasRun3 (collapseSpacesAux fuel s) = false := by
  induction fuel generalizing s with
  | zero =>
    have hs : s = [] := List.length_eq_zero.mp (Nat.le_zero.mp hf)
    subst hs
    rfl
  | succ n ih =>
    cases s with
    | nil => rfl
    | cons c cs =>
      simp only [collapseSpacesAux]
      by_cases hc : c = ' '
      · rw [if_pos hc]
        have hrhead : (cs.dropWhile (fun d => d = ' ')).head? ≠ some ' ' := by
          intro he
          have hall := head?_dropWhile_not (fun d => d = ' ') cs
          rw [he] at hall
          simp at hall
        have hlen : (cs.dropWhile (fun d => d = ' ')).length ≤ n := by
          have hsfx : cs.dropWhile (fun d => d = ' ') <:+ cs := List.dropWhile_suffix _
          have h1 := hsfx.length_le
          simp only [List.length_cons] at hf
          omega
        have hw := ih _ hlen
        have hwh : (collapseSpacesAux n (cs.dropWhile (fun d => d = ' '))).head? ≠ some ' ' :=
          collapseSpacesAux_head_not_space hrhead
        by_cases hrun : 3 ≤ 1 + (cs.takeWhile (fun d => d = ' ')).length
        · rw [if_pos hrun]
          rw [show ([' ', ' '] : List Char) = List.replicate 2 ' ' from rfl]
          exact hasRun3_spaces_append (by omega) hw hwh
        · rw [if_neg hrun]
          exact hasRun3_spaces_append (by omega) hw hwh
      · rw [if_neg hc]
        simp only [hasRun3]
        rw [ih cs (by simp only [List.length_cons] at hf; omega)]
        simp [hc]

theorem collapseSpacesAux_id (fuel : Nat) (s : List Char) (h : hasRun3 s = false) :
    collapseSpacesAux fuel s = s := by
  induction fuel generalizing s with
  | zero => rfl
  | succ n ih =>
    cases s with
    | nil => rfl
    | cons c cs =>
      simp only [collapseSpacesAux]
      by_cases hc : c = ' '
      · rw [if_pos hc]
        have hrun : ¬ (3 ≤ 1 + (cs.takeWhile (fun d => d = ' ')).length) := by
          intro h3
          obtain ⟨k, hk⟩ : ∃ k, (cs.takeWhile (fun d => d = ' ')).length = k + 2 :=
            ⟨(cs.takeWhile (fun d => d = ' ')).length - 2, by omega⟩
          obtain ⟨rest, hr⟩ : cs.takeWhile (fun d => d = ' ') <+: cs :=
            List.takeWhile_prefix _
          have hcs : cs = ' ' :: ' ' :: (List.replicate k ' ' ++ rest) := by
            rw [← hr, takeWhile_spaces_replicate cs, hk]
            simp [List.replicate_succ]
          have htake : cs.take 2 = [' ', ' '] := by rw [hcs]; rfl
          simp [hasRun3, hc, htake] at h
        rw [if_neg hrun]
        rw [ih _ (hasRun3_suffix (List.dropWhile_suffix _) (hasRun3_tail h))]
        have hlen1 : (1 + (cs.takeWhile (fun d => d = ' ')).length) =
            (cs.takeWhile (fun d => d = ' ')).length + 1 := by omega
        rw [hlen1, List.replicate_succ, ← takeWhile_spaces_replicate cs]
        rw [List.cons_append, List.takeWhile_append_dropWhile, hc]
      · rw [if_neg hc]
        rw [ih cs (hasRun3_tail h)]

theorem mem_collapseSpacesAux {fuel : Nat} {s : List Char} {c : Char}
    (h : c ∈ collapseSpacesAux fuel s) : c ∈ s ∨ c = ' ' := by
  induction fuel generalizing s with
  | zero => exact Or.inl h
  | succ n ih =>
    cases s with
    | nil => simp [collapseSpacesAux] at h
    | cons d ds =>
      simp only [collapseSpacesAux] at h
      by_cases hd : d = ' '
      · rw [if_pos hd] at h
        rw [List.mem_append] at h
        rcases h with h1 | h2
        · right
          split at h1
          · rcases List.mem_cons.mp h1 with h | h
            · exact h
            · simpa using h
          · exact List.eq_of_mem_replicate h1
        · rcases ih h2 with h3 | h3
          · exact Or.inl (List.mem_cons_of_mem d ((List.dropWhile_suffix _).subset h3))
          · exact Or.inr h3
      · rw [if_neg hd] at h
        rcases List.mem_cons.mp h with h1 | h1
        · exact Or.inl (by simp [h1])
        · rcases ih h1 with h3 | h3
          · exact Or.inl (by simp [h3])
          · exact Or.inr h3

theorem stripMarkupPasses_id {s : List Char} (h : ∀ c ∈ s, plainTextChar c = true) :
    stripMarkupPasses s = s := by
  have hlt : ∀ c ∈ s, c ≠ '<' := fun c hc => (plainTextChar_iff.mp (h c hc)).2.1
  have hq : ∀ c ∈ s, c ≠ quoteChar ∧ c ≠ aposChar := fun c hc =>
    ⟨(plainTextChar_iff.mp (h c hc)).2.2.2.1, (plainTextChar_iff.mp (h c hc)).2.2.2.2.1⟩
  have hboth : ∀ c ∈ s, c ≠ '<' ∧ c ≠ '>' := fun c hc =>
    ⟨(plainTextChar_iff.mp (h c hc)).2.1, (plainTextChar_iff.mp (h c hc)).2.2.1⟩
  simp only [stripMarkupPasses]
  rw [stripComments_id hboth]
  rw [removeLazyBlocksCi_id (splitAtCi_eq_none (by decide) (by decide) hlt)]
  rw [removeLazyBlocksCi_id (splitAtCi_eq_none (by decide) (by decide) hlt)]
  rw [show removeStyleAttrs s = s from removeStyleAttrsAux_id _ _ _ hq]
  rw [replaceNamedTags_id hlt, replaceNamedTags_id hlt, brAfterPunct_id hlt,
    replaceNamedTags_id hlt, replaceNamedTags_id hlt, replaceAllTags_id hlt,
    removeTrailingLt_id hlt]

theorem stripHtmlTags_plain {s : List Char} (h : ∀ c ∈ s, plainTextChar c = true) :
    stripHtmlTags s = collapseSpaces (mapCtrlWs s) := by
  have hlt : ∀ c ∈ s, c ≠ '<' := fun c hc => (plainTextChar_iff.mp (h c hc)).2.1
  have hamp : ∀ c ∈ s, c ≠ '&' := fun c hc => (plainTextChar_iff.mp (h c hc)).1
  have hnl : ∀ c ∈ s, c ≠ '\n' := fun c hc => (plainTextChar_iff.mp (h c hc)).2.2.2.2.2
  have hflags : (hadHtmlTags s || hadHtmlComments s || hadHtmlEntities s) = false := by
    rw [hadHtmlTags_eq_false hlt, hadHtmlComments_eq_false hlt, hadHtmlEntities_eq_false hamp]
    rfl
  have hnly : ∀ c ∈ collapseSpaces (mapCtrlWs s), c ≠ '\n' := by
    intro c hc
    rcases mem_collapseSpacesAux hc with h1 | h1
    · rcases mem_mapCtrlWs h1 with h2 | h2
      · rw [h2]; decide
      · exact hnl c h2.1
    · rw [h1]; decide
  have hcn : collapseNewlines (collapseSpaces (mapCtrlWs s)) = collapseSpaces (mapCtrlWs s) :=
    collapseNewlinesAux_id _ _ hnly
  have hsb : stripSpaceBeforeNl (collapseSpaces (mapCtrlWs s)) = collapseSpaces (mapCtrlWs s) :=
    stripSpaceBeforeNlAux_id _ _ hnly
  have hsa : stripSpaceAfterNl (collapseSpaces (mapCtrlWs s)) = collapseSpaces (mapCtrlWs s) :=
    stripSpaceAfterNlAux_id _ _ hnly
  simp only [stripHtmlTags, stripPipelineCore, whitespacePasses]
  rw [hflags]
  simp only [Bool.false_eq_true, if_false]
  rw [stripMarkupPasses_id h, decodeHtmlEntities_id hamp]
  rw [hcn, hsb, hsa, stripLeadNl_id hnly, stripTrailNl_id hnly]

/-- C7 (amended): `stripHtmlTags` is not idempotent in general (see the
    counterexample), but it is idempotent on plain text: any input free of
    `&`, `<`, `>`, quotes and newlines reaches a fixed point after one
    application (the only surviving effect is control-whitespace mapping
    and space-run collapsing, and a collapsed string collapses no
    further). -/
theorem stripHtmlTags_idempotent_on_plain_text (s : List Char)
    (h : ∀ c ∈ s, plainTextChar c = true) :
    stripHtmlTags (stripHtmlTags s) = stripHtmlTags s := by
  rw [stripHtmlTags_plain h]
  have hy : ∀ c ∈ collapseSpaces (mapCtrlWs s), plainTextChar c = true := by
    intro c hc
    rcases mem_collapseSpacesAux hc with h1 | h1
    · rcases mem_mapCtrlWs h1 with h2 | h2
      · rw [h2]; decide
      · exact h c h2.1
    · rw [h1]; decide
  rw [stripHtmlTags_plain hy]
  have hyctrl : ∀ c ∈ collapseSpaces (mapCtrlWs s), isCtrlWs c = false := by
    intro c hc
    rcases mem_collapseSpacesAux hc with h1 | h1
    · rcases mem_mapCtrlWs h1 with h2 | h2
      · rw [h2]; decide
      · exact h2.2
    · rw [h1]; decide
  rw [mapCtrlWs_id hyctrl]
  exact collapseSpacesAux_id _ _ (hasRun3_collapseSpacesAux _ _ (le_refl _))

/-- Witness for C7 at a concrete plain-text input with a space run. -/
theorem stripHtmlTags_idempotent_on_plain_text_witness :
    stripHtmlTags (stripHtmlTags "ab    cd".data) = stripHtmlTags "ab    cd".data :=
  stripHtmlTags_idempotent_on_plain_text "ab    cd".data (by decide)

end Srt2Fcpx
